import Mathlib

/-!
Verification of the ai-content-rewriter variant-generation engine.

The definitions below are a shallow embedding of the TypeScript sources:
  * `src/utils.ts`      — chunker (`splitIntoChunks`), batch executor
    (`processInBatches`)
  * `src/constants.ts`  — limits, processing knobs, pricing table
  * `src/providers/openai.ts` — cost computation, retry loops, variant
    orchestration (`generateVariantsWithOpenAI`)
  * `src/rewriter.ts`   — input validation and prompt resolution

Strings are modelled as `List Char`; JS numbers used for money are modelled
as `ℚ`; asynchronous loops are modelled as fuel-indexed structural
recursions (the fuel bounds are exact iteration bounds of the source loops,
and the guard conditions of the source loops are kept explicitly, so the
fuel never changes the semantics).  Cooperative concurrency is modelled by
running the variant tasks to completion in slot order: all shared state
(`fatalError` flag, `results`, `errors`) is threaded explicitly.
-/

set_option maxRecDepth 10000

namespace AIContentRewriter

/-- The character class of the JS regex `\s` restricted to ASCII
(space, tab, newline, carriage return, vertical tab, form feed). -/
def isSpaceJS (c : Char) : Bool :=
  c = ' ' || c = '\t' || c = '\n' || c = '\r' || c = '\x0b' || c = '\x0c'

/-! ## Constants (`src/constants.ts`) -/

/-- `LIMITS.LARGE_ARTICLE_THRESHOLD` -/
def LARGE_ARTICLE_THRESHOLD : Nat := 12000

/-- `LIMITS.CHUNK_SIZE` -/
def CHUNK_SIZE : Nat := 2800

/-- `PROCESSING.MAX_RETRIES` -/
def MAX_RETRIES : Nat := 5

/-- `PROCESSING.RETRY_BASE_DELAY_MS` -/
def RETRY_BASE_DELAY_MS : Nat := 1000

/-! ## Chunker (`src/utils.ts`, `splitIntoChunks`) -/

/-- `ContentChunk` from `src/utils.ts`. -/
structure ContentChunk where
  content : List Char
  index : Nat
  isFirst : Bool
  isLast : Bool
deriving DecidableEq, Repr

/-- The four characters of the paragraph-closing tag searched for by the
cut-point scan. -/
def pTagClose : List Char := ['<', '/', 'p', '>']

/-- The `remaining[i] === "." && i+1 < remaining.length && /\s/.test(remaining[i+1])`
test of the cut-point scan. -/
def dotSpaceAt (rem : List Char) (i : Nat) : Bool :=
  rem.get? i = some '.' &&
    (match rem.get? (i + 1) with
     | some c => isSpaceJS c
     | none => false)

/-- The `for (let i = cutPoint; i < searchEnd; i++)` scan of
`splitIntoChunks`: finds the best cut point in the lookahead window.
`fuel` bounds the remaining iterations (the window is at most 400 wide,
and the `i < searchEnd` guard of the source loop is kept, so any
`fuel ≥ searchEnd - i` gives the loop semantics). -/
def scanCut (rem : List Char) (searchEnd cutPoint : Nat) :
    Nat → Nat → Nat → Nat
  | 0, _, best => best
  | fuel + 1, i, best =>
    if i < searchEnd then
      if (rem.drop i).take 4 = pTagClose then i + 4
      else
        let best' :=
          if dotSpaceAt rem i then i + 1
          else if rem.get? i = some '>' && best = cutPoint then i + 1
          else best
        scanCut rem searchEnd cutPoint fuel (i + 1) best'
    else best

/-- One iteration of the cut-point search of `splitIntoChunks`: the
`searchEnd`, the scan, and the resulting `cutPoint`. -/
def findCut (rem : List Char) (chunkSize : Nat) : Nat :=
  scanCut rem (min (chunkSize + 400) rem.length) chunkSize 400 chunkSize chunkSize

/-- The `while (remaining.length > chunkSize)` loop of `splitIntoChunks`
plus the final-remainder push.  Returns `none` exactly when the source
loop diverges: when the computed cut point does not advance past the
overlap, the JS loop recomputes the same cut on the same `remaining`
forever.  `fuel > rem.length` suffices because every productive iteration
strictly shortens `rem`. -/
def splitAux (chunkSize overlap : Nat) :
    Nat → List Char → Nat → Option (List ContentChunk)
  | 0, _, _ => none
  | fuel + 1, rem, index =>
    if rem.length ≤ chunkSize then
      -- final chunk: `if (remaining.length > 0)`
      if rem.isEmpty then some []
      else some [⟨rem, index, index == 0, true⟩]
    else
      let cutPoint := findCut rem chunkSize
      if cutPoint ≤ overlap then none
      else
        match splitAux chunkSize overlap fuel (rem.drop (cutPoint - overlap)) (index + 1) with
        | none => none
        | some cs => some (⟨rem.take cutPoint, index, index == 0, false⟩ :: cs)

/-- The trailing `chunks[chunks.length - 1].isLast = true` assignment of
`splitIntoChunks`. -/
def markLast : List ContentChunk → List ContentChunk
  | [] => []
  | [c] => [{ c with isLast := true }]
  | c :: c' :: cs => c :: markLast (c' :: cs)

/-- `splitIntoChunks` from `src/utils.ts`.  `none` models divergence of
the source loop. -/
def splitIntoChunks (content : List Char) (chunkSize : Nat)
    (overlap : Nat := 200) : Option (List ContentChunk) :=
  (splitAux chunkSize overlap (content.length + 1) content 0).map markLast

/-! ### Chunker lemmas -/

theorem scanCut_ge (rem : List Char) (se cp : Nat) :
    ∀ fuel i best, cp ≤ i → cp ≤ best →
      cp ≤ scanCut rem se cp fuel i best := by
  intro fuel
  induction fuel with
  | zero => intro i best _ hb; simpa [scanCut] using hb
  | succ fuel ih =>
    intro i best hi hb
    simp only [scanCut]
    split
    · split
      · omega
      · apply ih (i + 1)
        · omega
        · dsimp only
          split
          · omega
          · split
            · omega
            · exact hb
    · exact hb

theorem scanCut_le (rem : List Char) (se cp : Nat) :
    ∀ fuel i best, best ≤ se + 3 →
      scanCut rem se cp fuel i best ≤ se + 3 := by
  intro fuel
  induction fuel with
  | zero => intro i best hb; simpa [scanCut] using hb
  | succ fuel ih =>
    intro i best hb
    simp only [scanCut]
    split
    · split
      · omega
      · apply ih (i + 1)
        dsimp only
        split
        · omega
        · split
          · omega
          · exact hb
    · exact hb

theorem findCut_ge (rem : List Char) (chunkSize : Nat) :
    chunkSize ≤ findCut rem chunkSize :=
  scanCut_ge rem _ chunkSize 400 chunkSize chunkSize le_rfl le_rfl

theorem findCut_le (rem : List Char) (chunkSize : Nat)
    (h : chunkSize < rem.length) :
    findCut rem chunkSize ≤ chunkSize + 403 := by
  have hse : chunkSize ≤ min (chunkSize + 400) rem.length + 3 := by omega
  have := scanCut_le rem (min (chunkSize + 400) rem.length) chunkSize
    400 chunkSize chunkSize hse
  unfold findCut
  omega

theorem splitAux_isSome (chunkSize overlap : Nat) (hov : overlap < chunkSize) :
    ∀ fuel rem index, rem.length < fuel →
      ∃ cs, splitAux chunkSize overlap fuel rem index = some cs := by
  intro fuel
  induction fuel with
  | zero => intro rem index h; omega
  | succ fuel ih =>
    intro rem index h
    simp only [splitAux]
    split
    · split
      · exact ⟨[], rfl⟩
      · exact ⟨_, rfl⟩
    · rename_i hlen
      have hcut := findCut_ge rem chunkSize
      have hno : ¬ findCut rem chunkSize ≤ overlap := by omega
      simp only [hno, if_false]
      have hdrop : (rem.drop (findCut rem chunkSize - overlap)).length < fuel := by
        have := List.length_drop (findCut rem chunkSize - overlap) rem
        omega
      obtain ⟨cs, hcs⟩ := ih (rem.drop (findCut rem chunkSize - overlap)) (index + 1) hdrop
      exact ⟨⟨rem.take (findCut rem chunkSize), index, index == 0, false⟩ :: cs,
        by rw [hcs]⟩

theorem splitAux_length_bound (chunkSize overlap : Nat) :
    ∀ fuel rem index cs, splitAux chunkSize overlap fuel rem index = some cs →
      ∀ c ∈ cs, c.content.length ≤ chunkSize + 403 := by
  intro fuel
  induction fuel with
  | zero => intro rem index cs h; simp [splitAux] at h
  | succ fuel ih =>
    intro rem index cs h c hc
    simp only [splitAux] at h
    split at h
    · rename_i hlen
      split at h
      · simp at h; subst h; simp at hc
      · simp at h; subst h
        simp at hc; subst hc
        simpa using by omega
    · rename_i hlen
      split at h
      · exact absurd h (by simp)
      · rename_i hcut
        split at h
        · exact absurd h (by simp)
        · rename_i cs' hcs'
          simp at h; subst h
          rw [List.mem_cons] at hc
          rcases hc with hc | hc
          · subst hc
            simp only [List.length_take]
            have := findCut_le rem chunkSize (by omega)
            omega
          · exact ih _ _ _ hcs' c hc

theorem splitAux_ne_nil (chunkSize overlap : Nat) :
    ∀ fuel rem index cs, splitAux chunkSize overlap fuel rem index = some cs →
      rem ≠ [] → cs ≠ [] := by
  intro fuel
  induction fuel with
  | zero => intro rem index cs h; simp [splitAux] at h
  | succ fuel _ =>
    intro rem index cs h hrem
    simp only [splitAux] at h
    split at h
    · rw [if_neg (by simpa using hrem)] at h
      simp at h; subst h; simp
    · split at h
      · exact absurd h (by simp)
      · split at h
        · exact absurd h (by simp)
        · simp at h; subst h; simp

theorem splitAux_isFirst_false (chunkSize overlap : Nat) :
    ∀ fuel rem index cs, splitAux chunkSize overlap fuel rem index = some cs →
      index ≠ 0 → ∀ c ∈ cs, c.isFirst = false := by
  intro fuel
  induction fuel with
  | zero => intro rem index cs h; simp [splitAux] at h
  | succ fuel ih =>
    intro rem index cs h hidx c hc
    simp only [splitAux] at h
    split at h
    · split at h
      · simp at h; subst h; simp at hc
      · simp at h; subst h
        simp at hc; subst hc
        simpa using hidx
    · split at h
      · exact absurd h (by simp)
      · split at h
        · exact absurd h (by simp)
        · rename_i cs' hcs'
          simp at h; subst h
          rw [List.mem_cons] at hc
          rcases hc with hc | hc
          · subst hc; simpa using hidx
          · exact ih _ _ _ hcs' (by omega) c hc

theorem splitAux_head_isFirst (chunkSize overlap : Nat) :
    ∀ fuel rem cs, splitAux chunkSize overlap fuel rem 0 = some cs →
      rem ≠ [] →
      ∃ c0 tl, cs = c0 :: tl ∧ c0.isFirst = true ∧
        ∀ c ∈ tl, c.isFirst = false := by
  intro fuel rem cs h hrem
  cases fuel with
  | zero => simp [splitAux] at h
  | succ fuel =>
    simp only [splitAux] at h
    split at h
    · rw [if_neg (by simpa using hrem)] at h
      simp at h; subst h
      exact ⟨_, [], rfl, rfl, by simp⟩
    · split at h
      · exact absurd h (by simp)
      · split at h
        · exact absurd h (by simp)
        · rename_i cs' hcs'
          simp at h; subst h
          exact ⟨_, cs', rfl, rfl,
            splitAux_isFirst_false chunkSize overlap _ _ _ _ hcs' (by omega)⟩

theorem splitAux_dropLast_isLast (chunkSize overlap : Nat) :
    ∀ fuel rem index cs, splitAux chunkSize overlap fuel rem index = some cs →
      ∀ c ∈ cs.dropLast, c.isLast = false := by
  intro fuel
  induction fuel with
  | zero => intro rem index cs h; simp [splitAux] at h
  | succ fuel ih =>
    intro rem index cs h c hc
    simp only [splitAux] at h
    split at h
    · split at h
      · simp at h; subst h; simp at hc
      · simp at h; subst h; simp at hc
    · split at h
      · exact absurd h (by simp)
      · split at h
        · exact absurd h (by simp)
        · rename_i cs' hcs'
          simp at h; subst h
          cases cs' with
          | nil => simp at hc
          | cons d ds =>
            rw [List.dropLast_cons_of_ne_nil (by simp), List.mem_cons] at hc
            rcases hc with hc | hc
            · subst hc; rfl
            · exact ih _ _ _ hcs' c hc

theorem markLast_countP_isFirst (cs : List ContentChunk) :
    (markLast cs).countP (fun c => c.isFirst) =
      cs.countP (fun c => c.isFirst) := by
  induction cs with
  | nil => rfl
  | cons c cs ih =>
    cases cs with
    | nil => simp [markLast, List.countP_cons]
    | cons c' cs' => simp [markLast, List.countP_cons, ih]

theorem markLast_countP_isLast (cs : List ContentChunk) (hne : cs ≠ [])
    (h : ∀ c ∈ cs.dropLast, c.isLast = false) :
    (markLast cs).countP (fun c => c.isLast) = 1 := by
  induction cs with
  | nil => exact absurd rfl hne
  | cons c cs ih =>
    cases cs with
    | nil => simp [markLast, List.countP_cons]
    | cons c' cs' =>
      have hc : c.isLast = false := h c (by
        rw [List.dropLast_cons_of_ne_nil (by simp)]; simp)
      have htl : ∀ d ∈ (c' :: cs').dropLast, d.isLast = false := by
        intro d hd
        exact h d (by
          rw [List.dropLast_cons_of_ne_nil (by simp)]
          exact List.mem_cons_of_mem _ hd)
      simp [markLast, List.countP_cons, hc, ih (by simp) htl]

theorem markLast_mem_content (cs : List ContentChunk) (c : ContentChunk)
    (h : c ∈ markLast cs) : ∃ c' ∈ cs, c.content = c'.content := by
  induction cs with
  | nil => simp [markLast] at h
  | cons d ds ih =>
    cases ds with
    | nil =>
      simp [markLast] at h
      exact ⟨d, by simp, by simp [h]⟩
    | cons d' ds' =>
      simp only [markLast, List.mem_cons] at h
      rcases h with h | h
      · exact ⟨d, by simp, by simp [h]⟩
      · obtain ⟨c', hc', he⟩ := ih h
        exact ⟨c', List.mem_cons_of_mem _ hc', he⟩

/-! ### Claim C5 -/

/-- C5 counterexample: the empty content string is shorter than the chunk
size 2800, yet `splitIntoChunks` yields zero chunks — so no chunk at all
has `isFirst = true` or `isLast = true`, contradicting both parts of the
claim. -/
theorem splitIntoChunks_empty_counterexample :
    splitIntoChunks [] 2800 200 = some [] ∧
    Option.map (fun cs => List.countP (fun c => c.isFirst) cs)
        (splitIntoChunks [] 2800 200) = some 0 ∧
    Option.map (fun cs => List.countP (fun c => c.isLast) cs)
        (splitIntoChunks [] 2800 200) = some 0 :=
  ⟨rfl, rfl, rfl⟩

/-- C5 (amended): for every NONEMPTY content string and every overlap
smaller than the chunk size (so that the source loop terminates; the
library always calls with chunk size 2800 and overlap 200),
`splitIntoChunks` produces a chunk list in which exactly one chunk has
`isFirst = true` and exactly one chunk has `isLast = true`; nonempty
content shorter than the chunk size yields exactly one chunk with both
flags true. -/
theorem splitIntoChunks_flag_uniqueness (content : List Char)
    (chunkSize overlap : Nat) (hne : content ≠ []) (hov : overlap < chunkSize) :
    ∃ cs, splitIntoChunks content chunkSize overlap = some cs ∧
      cs.countP (fun c => c.isFirst) = 1 ∧
      cs.countP (fun c => c.isLast) = 1 ∧
      (content.length < chunkSize → cs = [⟨content, 0, true, true⟩]) := by
  obtain ⟨cs0, hcs0⟩ :=
    splitAux_isSome chunkSize overlap hov (content.length + 1) content 0 (by omega)
  refine ⟨markLast cs0, by simp [splitIntoChunks, hcs0], ?_, ?_, ?_⟩
  · rw [markLast_countP_isFirst]
    obtain ⟨c0, tl, hcs, hfirst, htl⟩ :=
      splitAux_head_isFirst chunkSize overlap _ _ _ hcs0 hne
    subst hcs
    rw [List.countP_cons]
    have htl0 : tl.countP (fun c => c.isFirst) = 0 := by
      rw [List.countP_eq_zero]
      intro c hc
      simp [htl c hc]
    simp [hfirst, htl0]
  · exact markLast_countP_isLast cs0
      (splitAux_ne_nil chunkSize overlap _ _ _ _ hcs0 hne)
      (splitAux_dropLast_isLast chunkSize overlap _ _ _ _ hcs0)
  · intro hlt
    have hone : splitAux chunkSize overlap (content.length + 1) content 0 =
        some [⟨content, 0, true, true⟩] := by
      simp only [splitAux]
      rw [if_pos (by omega), if_neg (by simpa using hne)]
      rfl
    rw [hone] at hcs0
    have : cs0 = [⟨content, 0, true, true⟩] := by
      simpa using hcs0.symm
    subst this
    rfl

/-- C5 witness: a one-character content string with the library parameters
(chunk size 2800, overlap 200). -/
theorem splitIntoChunks_flag_uniqueness_witness :
    ∃ cs, splitIntoChunks ['a'] 2800 200 = some cs ∧
      cs.countP (fun c => c.isFirst) = 1 ∧
      cs.countP (fun c => c.isLast) = 1 ∧
      (List.length ['a'] < 2800 → cs = [⟨['a'], 0, true, true⟩]) :=
  splitIntoChunks_flag_uniqueness ['a'] 2800 200 (by decide) (by decide)

/-! ### Claim C6 -/

/-- C6 counterexample: with chunk size 1 (lookahead slack 400), a content
string whose only clean cut is a `</p>` tag ending at offset 402 produces
a chunk of length 402 > chunkSize + 400 = 401: the four-character
paragraph tag may end up to 3 characters past the lookahead window, so
the bound `chunkSize + 400` claimed by the spec is exceeded. -/
theorem splitIntoChunks_oversize_counterexample :
    Option.map (fun cs => cs.map (fun c => c.content.length))
        (splitIntoChunks (List.replicate 398 'a' ++ ['<', '/', 'p', '>']) 1 0) =
      some [402] ∧ ¬ (402 ≤ 1 + 400) :=
  ⟨by decide, by decide⟩

/-- C6 (amended): every chunk produced by a terminating run of
`splitIntoChunks` has length at most `chunkSize + 403`: the cut scan stops
before `chunkSize + 400`, and a paragraph-closing tag found at the last
scanned position extends the cut 4 characters past it. -/
theorem splitIntoChunks_length_bound (content : List Char)
    (chunkSize overlap : Nat) (cs : List ContentChunk)
    (h : splitIntoChunks content chunkSize overlap = some cs) :
    ∀ c ∈ cs, c.content.length ≤ chunkSize + 403 := by
  unfold splitIntoChunks at h
  cases hsp : splitAux chunkSize overlap (content.length + 1) content 0 with
  | none => rw [hsp] at h; simp at h
  | some cs0 =>
    rw [hsp] at h
    simp only [Option.map, Option.some.injEq] at h
    subst h
    intro c hc
    obtain ⟨c', hc', he⟩ := markLast_mem_content cs0 c hc
    rw [he]
    exact splitAux_length_bound chunkSize overlap _ _ _ _ hsp c' hc'

/-- C6 witness: the single chunk of a short content string satisfies the
amended bound. -/
theorem splitIntoChunks_length_bound_witness :
    (⟨['a'], 0, true, true⟩ : ContentChunk).content.length ≤ 2800 + 403 :=
  splitIntoChunks_length_bound ['a'] 2800 200 [⟨['a'], 0, true, true⟩]
    (by decide) ⟨['a'], 0, true, true⟩ (List.mem_singleton.mpr rfl)

/-! ## Pricing (`src/constants.ts` and `src/providers/openai.ts`) -/

/-- `ModelPricing` from `src/constants.ts` (USD per 1M tokens). -/
structure ModelPricing where
  input : ℚ
  output : ℚ
deriving DecidableEq, Repr

/-- `MODEL_PRICING` from `src/constants.ts`: only gpt-4.1 is supported. -/
def MODEL_PRICING : List (String × ModelPricing) :=
  [("gpt-4.1", ⟨5, 15⟩), ("default", ⟨5, 15⟩)]

/-- `getModelPricing` from `src/constants.ts`: the source ignores its
argument and returns `MODEL_PRICING["gpt-4.1"]` unconditionally. -/
def getModelPricing (_model : String) : ModelPricing := ⟨5, 15⟩

/-- `calculateCost` from `src/providers/openai.ts`. -/
def calculateCost (model : String) (inputTokens outputTokens : Nat) : ℚ :=
  ((inputTokens : ℚ) / 1000000) * (getModelPricing model).input +
    ((outputTokens : ℚ) / 1000000) * (getModelPricing model).output

/-- The longest-key entry of a pricing-table fragment (used by the
spec-side resolution below). -/
def longestKeyEntry : List (String × ModelPricing) → Option (String × ModelPricing)
  | [] => none
  | kv :: rest =>
    match longestKeyEntry rest with
    | none => some kv
    | some best => if best.1.length < kv.1.length then some kv else some best

/-- Modelled from the spec (refinement side of claim C7): resolve the
model price entry by exact match, else longest-prefix match (the
`default` entry is not a prefix candidate), else the `default` entry. -/
def specResolvePricing (model : String) : ModelPricing :=
  match MODEL_PRICING.lookup model with
  | some p => p
  | none =>
    let candidates := MODEL_PRICING.filter
      (fun kv => decide (kv.1 ≠ "default") && kv.1.isPrefixOf model)
    match longestKeyEntry candidates with
    | some kv => kv.2
    | none => (MODEL_PRICING.lookup "default").getD ⟨5, 15⟩

theorem specResolvePricing_eq (m : String) : specResolvePricing m = ⟨5, 15⟩ := by
  by_cases h1 : m = "gpt-4.1"
  · subst h1; rfl
  · by_cases h2 : m = "default"
    · subst h2; rfl
    · have e1 : (m == "gpt-4.1") = false := beq_eq_false_iff_ne.mpr h1
      have e2 : (m == "default") = false := beq_eq_false_iff_ne.mpr h2
      cases hp : "gpt-4.1".isPrefixOf m <;>
        simp [specResolvePricing, MODEL_PRICING, List.lookup, List.filter,
          longestKeyEntry, e1, e2, hp]

/-! ### Claim C7 -/

/-- C7: `calculateCost` equals the cost computed from the price entry
resolved per the spec (exact match, else longest-prefix match, else the
default entry); the cost of zero tokens is zero; and the cost is additive
(hence linear) in both token counts.  (All entries of the pricing table
carry the same prices, so the code path — which always takes the gpt-4.1
entry — agrees with the spec-side resolution on every model name.) -/
theorem calculateCost_spec (model : String) (inputTokens outputTokens i1 i2 o1 o2 : Nat) :
    calculateCost model inputTokens outputTokens =
      ((inputTokens : ℚ) / 1000000) * (specResolvePricing model).input +
        ((outputTokens : ℚ) / 1000000) * (specResolvePricing model).output ∧
    calculateCost model 0 0 = 0 ∧
    calculateCost model (i1 + i2) (o1 + o2) =
      calculateCost model i1 o1 + calculateCost model i2 o2 := by
  refine ⟨?_, by simp [calculateCost], ?_⟩
  · rw [specResolvePricing_eq]
    rfl
  · simp only [calculateCost, getModelPricing, Nat.cast_add]
    ring

/-! ### Claim C10 -/

/-- C10: `getModelPricing` ignores its model-name argument and returns
the gpt-4.1 price entry for every input, hence `calculateCost` is
independent of the model name. -/
theorem calculateCost_model_independent :
    (∀ m : String, some (getModelPricing m) = MODEL_PRICING.lookup "gpt-4.1") ∧
    (∀ (m1 m2 : String) (i o : Nat), calculateCost m1 i o = calculateCost m2 i o) :=
  ⟨fun _ => rfl, fun _ _ _ _ => rfl⟩

/-! ## Chunked reassembly (`src/providers/openai.ts`,
`rewriteLargeContentWithOpenAI` lines 430–440) -/

/-- The value returned by `chunkProcessor` for one chunk:
`{ html, cost }`. -/
structure ChunkRewriteResult where
  html : List Char
  cost : ℚ
deriving DecidableEq, Repr

/-- The `for (const result of results)` aggregation loop of
`rewriteLargeContentWithOpenAI`: a result with non-empty `html` is pushed
onto `rewrittenChunks` and its cost added to the running total (which the
source initializes to the meta-rewrite cost); a result with empty `html`
is skipped entirely. -/
def aggregateChunks (results : List ChunkRewriteResult) (metaCost : ℚ) :
    List (List Char) × ℚ :=
  results.foldl
    (fun acc r =>
      if r.html.isEmpty then acc else (acc.1 ++ [r.html], acc.2 + r.cost))
    ([], metaCost)

/-- The `rewrittenChunks.join("\n")` reassembly (before normalization and
clamping). -/
def joinRewrittenChunks (results : List ChunkRewriteResult) (metaCost : ℚ) :
    List Char :=
  List.intercalate ['\n'] (aggregateChunks results metaCost).1

theorem aggregateChunks_foldl (results : List ChunkRewriteResult)
    (acc : List (List Char)) (c : ℚ) :
    results.foldl
        (fun acc r =>
          if r.html.isEmpty then acc else (acc.1 ++ [r.html], acc.2 + r.cost))
        (acc, c) =
      (acc ++ (results.filter (fun r => !r.html.isEmpty)).map (fun r => r.html),
       c + ((results.filter (fun r => !r.html.isEmpty)).map (fun r => r.cost)).sum) := by
  induction results generalizing acc c with
  | nil => simp
  | cons r rest ih =>
    rw [List.foldl_cons]
    dsimp only
    rcases Bool.eq_false_or_eq_true r.html.isEmpty with h | h
    · rw [if_pos h, ih]
      simp [List.filter_cons, h]
    · rw [if_neg (by simp [h]), ih]
      simp [List.filter_cons, h, add_assoc]

/-! ### Claim C9 -/

/-- C9: in the chunked reassembly, a chunk result with empty rewritten
html is silently excluded: the collected outputs are exactly the
non-empty chunk outputs in original order (and the final content is their
newline-join), the accumulated cost adds exactly the costs of those
non-empty chunks to the initial (meta) cost, and inserting an
empty-output chunk anywhere leaves the aggregation unchanged. -/
theorem aggregateChunks_skips_empty (results : List ChunkRewriteResult)
    (metaCost : ℚ) (pre post : List ChunkRewriteResult) (c : ℚ) :
    (aggregateChunks results metaCost).1 =
      (results.filter (fun r => !r.html.isEmpty)).map (fun r => r.html) ∧
    joinRewrittenChunks results metaCost =
      List.intercalate ['\n']
        ((results.filter (fun r => !r.html.isEmpty)).map (fun r => r.html)) ∧
    (aggregateChunks results metaCost).2 =
      metaCost +
        ((results.filter (fun r => !r.html.isEmpty)).map (fun r => r.cost)).sum ∧
    aggregateChunks (pre ++ ⟨[], c⟩ :: post) metaCost =
      aggregateChunks (pre ++ post) metaCost := by
  refine ⟨?_, ?_, ?_, ?_⟩
  · rw [show aggregateChunks results metaCost =
      results.foldl _ (([] : List (List Char)), metaCost) from rfl,
      aggregateChunks_foldl]
    simp
  · unfold joinRewrittenChunks
    rw [show aggregateChunks results metaCost =
      results.foldl _ (([] : List (List Char)), metaCost) from rfl,
      aggregateChunks_foldl]
    simp
  · rw [show aggregateChunks results metaCost =
      results.foldl _ (([] : List (List Char)), metaCost) from rfl,
      aggregateChunks_foldl]
  · unfold aggregateChunks
    rw [aggregateChunks_foldl, aggregateChunks_foldl]
    simp [List.filter_append, List.filter_cons]

/-! ## Batch executor (`src/utils.ts`, `processInBatches`) -/

/-- One `Promise.all` batch: each task of the batch performs
`results[actualIndex] = result`; `order` is the order in which the tasks
of the batch complete (each task writes exactly its own slot). -/
def runBatch (f : Nat → Option β) (order : List Nat)
    (acc : List (Option β)) : List (Option β) :=
  order.foldl (fun a i => a.set i (f i)) acc

/-- The indices of batch `k`: `items.slice(i, i + batchSize)` with
`i = k * batchSize`. -/
def batchIndices (n batchSize k : Nat) : List Nat :=
  List.range' (k * batchSize) (min batchSize (n - k * batchSize))

/-- The batched loop of `processInBatches`: the batches run in order, and
within batch `k` the completion order is `sched k`. -/
def processRaw (items : List α) (processor : α → Nat → β) (batchSize : Nat)
    (sched : Nat → List Nat) : List (Option β) :=
  (List.range ((items.length + batchSize - 1) / batchSize)).foldl
    (fun acc k =>
      runBatch (fun i => (items.get? i).map (fun a => processor a i)) (sched k) acc)
    (List.replicate items.length none)

/-- `processInBatches` from `src/utils.ts`, modelled with an explicit
within-batch completion schedule (`sched k` enumerates batch `k`'s indices
in completion order).  A slot still `none` would be an `undefined` hole of
the source's `results` array.  `none` models divergence of the
`i += batchSize` loop when `batchSize = 0`. -/
def processInBatches (items : List α) (processor : α → Nat → β)
    (batchSize : Nat) (sched : Nat → List Nat) : Option (List (Option β)) :=
  if batchSize = 0 then none
  else some (processRaw items processor batchSize sched)

theorem runBatch_length (f : Nat → Option β) :
    ∀ (order : List Nat) (acc : List (Option β)),
      (runBatch f order acc).length = acc.length := by
  intro order
  induction order with
  | nil => intro acc; rfl
  | cons i rest ih =>
    intro acc
    show (runBatch f rest (acc.set i (f i))).length = acc.length
    rw [ih, List.length_set]

theorem runBatch_getElem (f : Nat → Option β) :
    ∀ (order : List Nat) (acc : List (Option β)) (j : Nat),
      (runBatch f order acc)[j]? =
        if j ∈ order ∧ j < acc.length then some (f j) else acc[j]? := by
  intro order
  induction order with
  | nil => intro acc j; simp [runBatch]
  | cons i rest ih =>
    intro acc j
    show (runBatch f rest (acc.set i (f i)))[j]? = _
    rw [ih, List.length_set, List.getElem?_set]
    by_cases hij : i = j
    · subst hij
      by_cases hjl : i < acc.length
      · simp [hjl]
      · have hnone : acc[i]? = none := List.getElem?_eq_none (by omega)
        simp [hjl, hnone]
    · have hne : ¬ j = i := fun h => hij h.symm
      by_cases hjr : j ∈ rest
      · simp [hij, hjr]
      · simp [hij, hne, hjr, List.mem_cons]

theorem processRaw_length (items : List α) (processor : α → Nat → β)
    (batchSize : Nat) (sched : Nat → List Nat) :
    (processRaw items processor batchSize sched).length = items.length := by
  unfold processRaw
  generalize (List.range ((items.length + batchSize - 1) / batchSize)) = ks
  induction ks using List.reverseRecOn with
  | nil => simp
  | append_singleton ks k ih => rw [List.foldl_append, List.foldl_cons,
      List.foldl_nil, runBatch_length, ih]

theorem foldBatches_getElem (f : Nat → Option β) (n bs : Nat)
    (sched : Nat → List Nat)
    (hsched : ∀ k, (sched k).Perm (batchIndices n bs k)) :
    ∀ m j, ((List.range m).foldl (fun acc k => runBatch f (sched k) acc)
        (List.replicate n none))[j]? =
      if j < n then some (if j < m * bs then f j else none) else none := by
  intro m
  induction m with
  | zero =>
    intro j
    simp [List.getElem?_replicate]
  | succ m ih =>
    intro j
    rw [List.range_succ, List.foldl_append, List.foldl_cons, List.foldl_nil,
      runBatch_getElem]
    have hlen : ((List.range m).foldl (fun acc k => runBatch f (sched k) acc)
        (List.replicate n none)).length = n := by
      clear ih
      induction m with
      | zero => simp
      | succ m ihm => rw [List.range_succ, List.foldl_append, List.foldl_cons,
          List.foldl_nil, runBatch_length, ihm]
    rw [hlen, ih j]
    have hmem : j ∈ sched m ↔ (m * bs ≤ j ∧ j < m * bs + min bs (n - m * bs)) := by
      rw [(hsched m).mem_iff]
      unfold batchIndices
      exact List.mem_range'_1
    have hsm : (m + 1) * bs = m * bs + bs := Nat.succ_mul m bs
    rw [hsm]
    set A := m * bs with hA
    by_cases hj : j < n
    · by_cases hin : j ∈ sched m
      · have hb := hmem.mp hin
        have h1 : min bs (n - A) ≤ bs := Nat.min_le_left _ _
        rw [if_pos ⟨hin, hj⟩, if_pos hj, if_pos (by omega)]
      · have hb : ¬ (A ≤ j ∧ j < A + min bs (n - A)) := fun h => hin (hmem.mpr h)
        rw [if_neg (fun h => hin h.1), if_pos hj, if_pos hj]
        by_cases hlt : j < A
        · rw [if_pos hlt, if_pos (by omega)]
        · have h1 : min bs (n - A) ≤ bs := Nat.min_le_left _ _
          have h2 : min bs (n - A) ≤ n - A := Nat.min_le_right _ _
          have h3 : bs ≤ min bs (n - A) ∨ n - A ≤ min bs (n - A) := by
            rcases Nat.le_total bs (n - A) with h | h
            · exact Or.inl (by rw [Nat.min_eq_left h])
            · exact Or.inr (by rw [Nat.min_eq_right h])
          rw [if_neg hlt, if_neg (by omega)]
    · rw [if_neg (fun h => hj h.2), if_neg hj, if_neg hj]

/-! ### Claim C3 -/

/-- C3: for every item list, every pure per-item task, and every batch
size ≥ 1, `processInBatches` fills every slot of the result array, the
result has the same length as the input, and the entry at position `i` is
the processor applied to the item at position `i` with index `i` —
regardless of the within-batch completion order `sched` (any permutation
of each batch). -/
theorem processInBatches_preserves_order (items : List α)
    (processor : α → Nat → β) (batchSize : Nat) (sched : Nat → List Nat)
    (hbs : 1 ≤ batchSize)
    (hsched : ∀ k, (sched k).Perm (batchIndices items.length batchSize k)) :
    processInBatches items processor batchSize sched =
      some ((List.range items.length).map
        (fun i => (items.get? i).map (fun a => processor a i))) := by
  unfold processInBatches
  rw [if_neg (by omega)]
  congr 1
  apply List.ext_getElem?
  intro j
  unfold processRaw
  rw [foldBatches_getElem _ items.length batchSize sched hsched]
  set n := items.length with hn
  set nb := (n + batchSize - 1) / batchSize with hnb
  have hcover : n ≤ nb * batchSize := by
    rcases Nat.eq_zero_or_pos n with h0 | h0
    · omega
    · have hrw : n + batchSize - 1 = (n - 1) + batchSize := by omega
      have hdiv : nb = (n - 1) / batchSize + 1 := by
        rw [hnb, hrw, Nat.add_div_right _ (by omega)]
      have hmod := Nat.div_add_mod (n - 1) batchSize
      have hmlt : (n - 1) % batchSize < batchSize := Nat.mod_lt _ (by omega)
      have hsm : nb * batchSize = batchSize * ((n - 1) / batchSize) + batchSize := by
        rw [hdiv, Nat.succ_mul, Nat.mul_comm]
      rw [hsm]
      omega
  by_cases hj : j < n
  · rw [if_pos hj, if_pos (by omega), List.getElem?_map,
      List.getElem?_range hj]
    rfl
  · rw [if_neg hj, List.getElem?_eq_none (by simp [hn]; omega)]

/-- An example completion schedule for the C3 witness: the first batch of
`[10, 20, 30]` with batch size 2 completes out of order. -/
def schedExample : Nat → List Nat
  | 0 => [1, 0]
  | 1 => [2]
  | _ => []

theorem schedExample_perm :
    ∀ k, (schedExample k).Perm (batchIndices 3 2 k) := by
  intro k
  match k with
  | 0 => decide
  | 1 => decide
  | k + 2 =>
    have : batchIndices 3 2 (k + 2) = [] := by
      unfold batchIndices
      have h1 : 3 - (k + 2) * 2 = 0 := by omega
      rw [h1]
      rfl
    rw [this]
    rfl

/-- C3 witness: three items, batch size 2, out-of-order completion inside
the first batch; the result is still in input order. -/
theorem processInBatches_preserves_order_witness :
    processInBatches [10, 20, 30] (fun a i => a * 10 + i) 2 schedExample =
      some [some 100, some 201, some 302] := by
  rw [processInBatches_preserves_order [10, 20, 30] (fun a i => a * 10 + i) 2
    schedExample (by omega) schedExample_perm]
  rfl

/-! ## Provider errors (`src/types.ts`, `src/providers/openai.ts`) -/

/-- The error classes thrown by `rewriteWithOpenAI`: a `RateLimitError`
(HTTP 429, optional retry-after hint), a `ProviderError` whose details
carry the HTTP status and provider error code of a non-429 `APIError`, or
any other thrown value. -/
inductive PErr where
  | rateLimit (retryAfter : Option Nat)
  | providerE (status : Option Nat) (code : Option String)
  | otherE
deriving DecidableEq, Repr

/-- The fatal error codes listed in `isFatalError`. -/
def fatalCodes : List String :=
  ["model_not_found", "invalid_api_key", "insufficient_quota",
   "invalid_request_error"]

/-- `isFatalError` from `src/providers/openai.ts`: a `ProviderError` whose
details carry a fatal code or a fatal HTTP status (400/401/403/404).  A
`RateLimitError` is a `ProviderError`, but its details carry neither code
nor status, so it is never fatal; a non-`ProviderError` value is never
fatal. -/
def isFatalError : PErr → Bool
  | .providerE status code =>
    (match code with
     | some c => fatalCodes.contains c
     | none => false) ||
    (match status with
     | some s => [400, 401, 403, 404].contains s
     | none => false)
  | _ => false

/-- Whether an error is a `RateLimitError`. -/
def isRateLimit : PErr → Bool
  | .rateLimit _ => true
  | _ => false

/-! ## Retry loops (`src/providers/openai.ts`) -/

/-- The wait computed for the r-th consecutive failure inside
`chunkProcessor` (lines 397–414): rate limits back off with cap 30000 ms
plus `Math.random() * 1000` jitter; all other errors back off with cap
10000 ms and no jitter. -/
def chunkRetryDelay (e : PErr) (r : Nat) (j : Nat) : Nat :=
  match e with
  | .rateLimit _ => min (RETRY_BASE_DELAY_MS * 2 ^ r) 30000 + j
  | _ => min (RETRY_BASE_DELAY_MS * 2 ^ r) 10000

/-- The wait computed for the r-th consecutive failure inside the
small-content variant loop of `generateVariantsWithOpenAI` (lines
620–639): rate limits back off with cap 20000 ms plus jitter; other
transient errors back off with cap 5000 ms and no jitter. -/
def variantRetryDelay (e : PErr) (r : Nat) (j : Nat) : Nat :=
  match e with
  | .rateLimit _ => min (RETRY_BASE_DELAY_MS * 2 ^ r) 20000 + j
  | _ => min (RETRY_BASE_DELAY_MS * 2 ^ r) 5000

/-- The observable end of a chunk retry loop. -/
inductive ChunkLoopResult (α : Type) where
  | success (a : α)
  | thrown (e : PErr)
  | exhausted
deriving DecidableEq, Repr

/-- The observable end of one small-content variant task: stored result,
shared fatal flag set, error recorded, or silently dropped (the loop can
exit after a rate-limit wait at the retry cap without recording any
error). -/
inductive VariantOutcome (α : Type) where
  | success (a : α)
  | fatal (e : PErr)
  | errored (e : PErr)
  | dropped
deriving DecidableEq, Repr

/-- A finished retry-loop run: outcome, backoff delays slept (ms, in
order), and number of attempts issued. -/
structure RetryRun (ω : Type) where
  outcome : ω
  delays : List Nat
  attempts : Nat
deriving DecidableEq, Repr

/-- The `while (retries < MAX_RETRIES)` retry loop of `chunkProcessor`
(lines 379–421).  `attempt k` is the result of the (k+1)-th call to
`rewriteWithOpenAI` for this chunk; `jitter r` is the value of
`Math.random() * 1000` slept after the r-th rate-limit failure.  `fuel`
stands for `MAX_RETRIES - retries`, so `fuel = 0` is exactly the loop
guard failing, after which the source throws
`ProviderError("Failed to process chunk …")` (`.exhausted`).  Fatal
errors are NOT special-cased at chunk level. -/
def chunkRetryGo (attempt : Nat → Except PErr α) (jitter : Nat → Nat) :
    Nat → Nat → List Nat → RetryRun (ChunkLoopResult α)
  | 0, retries, delays => ⟨.exhausted, delays, retries⟩
  | fuel + 1, retries, delays =>
    match attempt retries with
    | .ok a => ⟨.success a, delays, retries + 1⟩
    | .error e =>
      match e with
      | .rateLimit _ =>
        chunkRetryGo attempt jitter fuel (retries + 1)
          (delays ++ [chunkRetryDelay e (retries + 1) (jitter (retries + 1))])
      | _ =>
        if MAX_RETRIES ≤ retries + 1 then ⟨.thrown e, delays, retries + 1⟩
        else
          chunkRetryGo attempt jitter fuel (retries + 1)
            (delays ++ [chunkRetryDelay e (retries + 1) 0])

/-- The chunk retry loop started with `retries = 0`. -/
def chunkRetryLoop (attempt : Nat → Except PErr α) (jitter : Nat → Nat) :
    RetryRun (ChunkLoopResult α) :=
  chunkRetryGo attempt jitter MAX_RETRIES 0 []

/-- The `while (retries < MAX_RETRIES)` loop of one small-content variant
task in `generateVariantsWithOpenAI` (lines 594–641): fatal errors stop
immediately (the shared flag), rate limits always back off, other errors
back off until the retry cap and are recorded (`.errored`) at it.  A
rate-limit failure at the cap slips out of the loop after its wait with
nothing recorded (`.dropped`). -/
def variantRetryGo (attempt : Nat → Except PErr α) (jitter : Nat → Nat) :
    Nat → Nat → List Nat → RetryRun (VariantOutcome α)
  | 0, retries, delays => ⟨.dropped, delays, retries⟩
  | fuel + 1, retries, delays =>
    match attempt retries with
    | .ok a => ⟨.success a, delays, retries + 1⟩
    | .error e =>
      if isFatalError e then ⟨.fatal e, delays, retries + 1⟩
      else
        match e with
        | .rateLimit _ =>
          variantRetryGo attempt jitter fuel (retries + 1)
            (delays ++ [variantRetryDelay e (retries + 1) (jitter (retries + 1))])
        | _ =>
          if MAX_RETRIES ≤ retries + 1 then ⟨.errored e, delays, retries + 1⟩
          else
            variantRetryGo attempt jitter fuel (retries + 1)
              (delays ++ [variantRetryDelay e (retries + 1) 0])

/-- The variant retry loop started with `retries = 0`. -/
def variantRetryLoop (attempt : Nat → Except PErr α) (jitter : Nat → Nat) :
    RetryRun (VariantOutcome α) :=
  variantRetryGo attempt jitter MAX_RETRIES 0 []

/-! ### Retry-loop lemmas -/

theorem chunkRetryGo_succ_ok (attempt : Nat → Except PErr α)
    (jitter : Nat → Nat) (fuel retries : Nat) (acc : List Nat) (a : α)
    (h : attempt retries = .ok a) :
    chunkRetryGo attempt jitter (fuel + 1) retries acc =
      ⟨.success a, acc, retries + 1⟩ := by
  rw [chunkRetryGo, h]

theorem chunkRetryGo_succ_rl (attempt : Nat → Except PErr α)
    (jitter : Nat → Nat) (fuel retries : Nat) (acc : List Nat)
    (ra : Option Nat) (h : attempt retries = .error (.rateLimit ra)) :
    chunkRetryGo attempt jitter (fuel + 1) retries acc =
      chunkRetryGo attempt jitter fuel (retries + 1)
        (acc ++ [chunkRetryDelay (.rateLimit ra) (retries + 1) (jitter (retries + 1))]) := by
  rw [chunkRetryGo, h]

theorem chunkRetryGo_succ_gen (attempt : Nat → Except PErr α)
    (jitter : Nat → Nat) (fuel retries : Nat) (acc : List Nat) (e : PErr)
    (h : attempt retries = .error e) (hnrl : isRateLimit e = false) :
    chunkRetryGo attempt jitter (fuel + 1) retries acc =
      if MAX_RETRIES ≤ retries + 1 then ⟨.thrown e, acc, retries + 1⟩
      else chunkRetryGo attempt jitter fuel (retries + 1)
        (acc ++ [chunkRetryDelay e (retries + 1) 0]) := by
  cases e with
  | rateLimit ra => exact absurd hnrl (by simp [isRateLimit])
  | providerE s c => rw [chunkRetryGo, h]
  | otherE => rw [chunkRetryGo, h]

theorem variantRetryGo_succ_ok (attempt : Nat → Except PErr α)
    (jitter : Nat → Nat) (fuel retries : Nat) (acc : List Nat) (a : α)
    (h : attempt retries = .ok a) :
    variantRetryGo attempt jitter (fuel + 1) retries acc =
      ⟨.success a, acc, retries + 1⟩ := by
  rw [variantRetryGo, h]

theorem variantRetryGo_succ_fatal (attempt : Nat → Except PErr α)
    (jitter : Nat → Nat) (fuel retries : Nat) (acc : List Nat) (e : PErr)
    (h : attempt retries = .error e) (hfat : isFatalError e = true) :
    variantRetryGo attempt jitter (fuel + 1) retries acc =
      ⟨.fatal e, acc, retries + 1⟩ := by
  rw [variantRetryGo, h]
  dsimp only
  rw [if_pos hfat]

theorem variantRetryGo_succ_rl (attempt : Nat → Except PErr α)
    (jitter : Nat → Nat) (fuel retries : Nat) (acc : List Nat)
    (ra : Option Nat) (h : attempt retries = .error (.rateLimit ra)) :
    variantRetryGo attempt jitter (fuel + 1) retries acc =
      variantRetryGo attempt jitter fuel (retries + 1)
        (acc ++ [variantRetryDelay (.rateLimit ra) (retries + 1) (jitter (retries + 1))]) := by
  rw [variantRetryGo, h]
  dsimp only
  rw [if_neg (by simp [isFatalError])]

theorem variantRetryGo_succ_gen (attempt : Nat → Except PErr α)
    (jitter : Nat → Nat) (fuel retries : Nat) (acc : List Nat) (e : PErr)
    (h : attempt retries = .error e) (hnrl : isRateLimit e = false)
    (hfat : isFatalError e = false) :
    variantRetryGo attempt jitter (fuel + 1) retries acc =
      if MAX_RETRIES ≤ retries + 1 then ⟨.errored e, acc, retries + 1⟩
      else variantRetryGo attempt jitter fuel (retries + 1)
        (acc ++ [variantRetryDelay e (retries + 1) 0]) := by
  cases e with
  | rateLimit ra => exact absurd hnrl (by simp [isRateLimit])
  | providerE s c =>
    rw [variantRetryGo, h]
    dsimp only
    rw [if_neg (by simp [hfat])]
  | otherE =>
    rw [variantRetryGo, h]
    dsimp only
    rw [if_neg (by simp [hfat])]


/-- Full characterization of one recorded chunk-loop delay: the k-th delay
belongs to a failure of attempt k, its value is given by
`chunkRetryDelay` at `r = k + 1`, and a non-rate-limit failure can only
record a delay strictly below the retry cap. -/
def chunkDelayP (attempt : Nat → Except PErr α) (jitter : Nat → Nat)
    (k d : Nat) : Prop :=
  ∃ e, attempt k = .error e ∧
    d = chunkRetryDelay e (k + 1) (jitter (k + 1)) ∧
    k + 1 ≤ MAX_RETRIES ∧ (isRateLimit e = false → k + 1 < MAX_RETRIES)

/-- Full characterization of one recorded variant-loop delay. -/
def variantDelayP (attempt : Nat → Except PErr α) (jitter : Nat → Nat)
    (k d : Nat) : Prop :=
  ∃ e, attempt k = .error e ∧
    d = variantRetryDelay e (k + 1) (jitter (k + 1)) ∧
    k + 1 ≤ MAX_RETRIES ∧ (isRateLimit e = false → k + 1 < MAX_RETRIES)

theorem chunkRetryGo_delays_spec (attempt : Nat → Except PErr α)
    (jitter : Nat → Nat) :
    ∀ fuel retries acc,
      retries + fuel ≤ MAX_RETRIES →
      acc.length = retries →
      (∀ k d, acc[k]? = some d → chunkDelayP attempt jitter k d) →
      ∀ k d, (chunkRetryGo attempt jitter fuel retries acc).delays[k]? = some d →
        chunkDelayP attempt jitter k d := by
  intro fuel
  induction fuel with
  | zero => intro retries acc _ _ hacc k d hk; exact hacc k d hk
  | succ fuel ih =>
    intro retries acc hle hlen hacc k d hk
    have hstep : ∀ e j', attempt retries = .error e →
        (∀ ra, e = .rateLimit ra → j' = jitter (retries + 1)) →
        (isRateLimit e = false → retries + 1 < MAX_RETRIES) →
        ∀ k d, (acc ++ [chunkRetryDelay e (retries + 1) j'])[k]? = some d →
          chunkDelayP attempt jitter k d := by
      intro e j' hatt hj' hlt k d hkd
      rw [List.getElem?_append] at hkd
      by_cases hklt : k < acc.length
      · rw [if_pos hklt] at hkd
        exact hacc k d hkd
      · rw [if_neg hklt] at hkd
        have hk0 : k = retries := by
          rcases Nat.lt_or_ge (k - acc.length) 1 with h | h
          · omega
          · rw [List.getElem?_eq_none (by simpa using h)] at hkd
            exact absurd hkd (by simp)
        subst hk0
        rw [show k - acc.length = 0 by omega] at hkd
        simp only [List.getElem?_cons_zero, Option.some.injEq] at hkd
        refine ⟨e, hatt, ?_, by omega, hlt⟩
        cases e with
        | rateLimit ra => rw [← hkd, hj' ra rfl]
        | providerE s c => rw [← hkd]; rfl
        | otherE => rw [← hkd]; rfl
    cases hatt : attempt retries with
    | ok a =>
      simp only [chunkRetryGo, hatt] at hk
      exact hacc k d hk
    | error e =>
      cases e with
      | rateLimit ra =>
        simp only [chunkRetryGo, hatt] at hk
        exact ih (retries + 1) _ (by omega) (by simp [hlen]) (hstep _ _ hatt
          (fun _ _ => rfl) (by simp [isRateLimit])) k d hk
      | providerE s c =>
        simp only [chunkRetryGo, hatt] at hk
        by_cases hcap : MAX_RETRIES ≤ retries + 1
        · rw [if_pos hcap] at hk
          exact hacc k d hk
        · rw [if_neg hcap] at hk
          exact ih (retries + 1) _ (by omega) (by simp [hlen]) (hstep _ 0 hatt
            (fun ra h => by cases h) (fun _ => by omega)) k d hk
      | otherE =>
        simp only [chunkRetryGo, hatt] at hk
        by_cases hcap : MAX_RETRIES ≤ retries + 1
        · rw [if_pos hcap] at hk
          exact hacc k d hk
        · rw [if_neg hcap] at hk
          exact ih (retries + 1) _ (by omega) (by simp [hlen]) (hstep _ 0 hatt
            (fun ra h => by cases h) (fun _ => by omega)) k d hk

theorem variantRetryGo_delays_spec (attempt : Nat → Except PErr α)
    (jitter : Nat → Nat) :
    ∀ fuel retries acc,
      retries + fuel ≤ MAX_RETRIES →
      acc.length = retries →
      (∀ k d, acc[k]? = some d → variantDelayP attempt jitter k d) →
      ∀ k d, (variantRetryGo attempt jitter fuel retries acc).delays[k]? = some d →
        variantDelayP attempt jitter k d := by
  intro fuel
  induction fuel with
  | zero => intro retries acc _ _ hacc k d hk; exact hacc k d hk
  | succ fuel ih =>
    intro retries acc hle hlen hacc k d hk
    have hstep : ∀ e j', attempt retries = .error e →
        (∀ ra, e = .rateLimit ra → j' = jitter (retries + 1)) →
        (isRateLimit e = false → retries + 1 < MAX_RETRIES) →
        ∀ k d, (acc ++ [variantRetryDelay e (retries + 1) j'])[k]? = some d →
          variantDelayP attempt jitter k d := by
      intro e j' hatt hj' hlt k d hkd
      rw [List.getElem?_append] at hkd
      by_cases hklt : k < acc.length
      · rw [if_pos hklt] at hkd
        exact hacc k d hkd
      · rw [if_neg hklt] at hkd
        have hk0 : k = retries := by
          rcases Nat.lt_or_ge (k - acc.length) 1 with h | h
          · omega
          · rw [List.getElem?_eq_none (by simpa using h)] at hkd
            exact absurd hkd (by simp)
        subst hk0
        rw [show k - acc.length = 0 by omega] at hkd
        simp only [List.getElem?_cons_zero, Option.some.injEq] at hkd
        refine ⟨e, hatt, ?_, by omega, hlt⟩
        cases e with
        | rateLimit ra => rw [← hkd, hj' ra rfl]
        | providerE s c => rw [← hkd]; rfl
        | otherE => rw [← hkd]; rfl
    cases hatt : attempt retries with
    | ok a =>
      simp only [variantRetryGo, hatt] at hk
      exact hacc k d hk
    | error e =>
      by_cases hfat : isFatalError e = true
      · simp only [variantRetryGo, hatt, hfat, if_true] at hk
        exact hacc k d hk
      · cases e with
        | rateLimit ra =>
          simp only [variantRetryGo, hatt, hfat, if_false, Bool.false_eq_true] at hk
          exact ih (retries + 1) _ (by omega) (by simp [hlen]) (hstep _ _ hatt
            (fun _ _ => rfl) (by simp [isRateLimit])) k d hk
        | providerE s c =>
          simp only [variantRetryGo, hatt, hfat, if_false, Bool.false_eq_true] at hk
          by_cases hcap : MAX_RETRIES ≤ retries + 1
          · rw [if_pos hcap] at hk
            exact hacc k d hk
          · rw [if_neg hcap] at hk
            exact ih (retries + 1) _ (by omega) (by simp [hlen]) (hstep _ 0 hatt
              (fun ra h => by cases h) (fun _ => by omega)) k d hk
        | otherE =>
          simp only [variantRetryGo, hatt, hfat, if_false, Bool.false_eq_true] at hk
          by_cases hcap : MAX_RETRIES ≤ retries + 1
          · rw [if_pos hcap] at hk
            exact hacc k d hk
          · rw [if_neg hcap] at hk
            exact ih (retries + 1) _ (by omega) (by simp [hlen]) (hstep _ 0 hatt
              (fun ra h => by cases h) (fun _ => by omega)) k d hk

theorem chunkRetryGo_attempts (attempt : Nat → Except PErr α)
    (jitter : Nat → Nat) :
    ∀ fuel retries acc,
      (chunkRetryGo attempt jitter fuel retries acc).attempts ≤ retries + fuel := by
  intro fuel
  induction fuel with
  | zero => intro retries acc; simp [chunkRetryGo]
  | succ fuel ih =>
    intro retries acc
    cases hatt : attempt retries with
    | ok a =>
      rw [chunkRetryGo_succ_ok attempt jitter fuel retries acc a hatt]
      dsimp only
      omega
    | error e =>
      cases e with
      | rateLimit ra =>
        rw [chunkRetryGo_succ_rl attempt jitter fuel retries acc ra hatt]
        refine le_trans (ih (retries + 1) _) ?_
        omega
      | providerE s c =>
        rw [chunkRetryGo_succ_gen attempt jitter fuel retries acc _ hatt rfl]
        split
        · dsimp only
          omega
        · refine le_trans (ih (retries + 1) _) ?_
          omega
      | otherE =>
        rw [chunkRetryGo_succ_gen attempt jitter fuel retries acc _ hatt rfl]
        split
        · dsimp only
          omega
        · refine le_trans (ih (retries + 1) _) ?_
          omega

theorem variantRetryGo_attempts (attempt : Nat → Except PErr α)
    (jitter : Nat → Nat) :
    ∀ fuel retries acc,
      (variantRetryGo attempt jitter fuel retries acc).attempts ≤ retries + fuel := by
  intro fuel
  induction fuel with
  | zero => intro retries acc; simp [variantRetryGo]
  | succ fuel ih =>
    intro retries acc
    cases hatt : attempt retries with
    | ok a =>
      rw [variantRetryGo_succ_ok attempt jitter fuel retries acc a hatt]
      dsimp only
      omega
    | error e =>
      by_cases hfat : isFatalError e = true
      · rw [variantRetryGo_succ_fatal attempt jitter fuel retries acc e hatt hfat]
        dsimp only
        omega
      · cases e with
        | rateLimit ra =>
          rw [variantRetryGo_succ_rl attempt jitter fuel retries acc ra hatt]
          refine le_trans (ih (retries + 1) _) ?_
          omega
        | providerE s c =>
          rw [variantRetryGo_succ_gen attempt jitter fuel retries acc _ hatt rfl
            (by simpa using hfat)]
          split
          · dsimp only
            omega
          · refine le_trans (ih (retries + 1) _) ?_
            omega
        | otherE =>
          rw [variantRetryGo_succ_gen attempt jitter fuel retries acc _ hatt rfl
            (by simpa using hfat)]
          split
          · dsimp only
            omega
          · refine le_trans (ih (retries + 1) _) ?_
            omega

theorem chunkRetryGo_no_success (attempt : Nat → Except PErr α)
    (jitter : Nat → Nat) :
    ∀ fuel retries acc,
      (∀ k, retries ≤ k → k < retries + fuel → ∃ e, attempt k = .error e) →
      ∀ a, (chunkRetryGo attempt jitter fuel retries acc).outcome ≠ .success a := by
  intro fuel
  induction fuel with
  | zero => intro retries acc _ a; simp [chunkRetryGo]
  | succ fuel ih =>
    intro retries acc hfail a
    obtain ⟨e, he⟩ := hfail retries le_rfl (by omega)
    cases e with
    | rateLimit ra =>
      rw [chunkRetryGo_succ_rl attempt jitter fuel retries acc ra he]
      refine ih (retries + 1) _ ?_ a
      intro k h1 h2
      exact hfail k (by omega) (by omega)
    | providerE s c =>
      rw [chunkRetryGo_succ_gen attempt jitter fuel retries acc _ he rfl]
      split
      · simp
      · refine ih (retries + 1) _ ?_ a
        intro k h1 h2
        exact hfail k (by omega) (by omega)
    | otherE =>
      rw [chunkRetryGo_succ_gen attempt jitter fuel retries acc _ he rfl]
      split
      · simp
      · refine ih (retries + 1) _ ?_ a
        intro k h1 h2
        exact hfail k (by omega) (by omega)

theorem variantRetryGo_no_success (attempt : Nat → Except PErr α)
    (jitter : Nat → Nat) :
    ∀ fuel retries acc,
      (∀ k, retries ≤ k → k < retries + fuel → ∃ e, attempt k = .error e) →
      ∀ a, (variantRetryGo attempt jitter fuel retries acc).outcome ≠ .success a := by
  intro fuel
  induction fuel with
  | zero => intro retries acc _ a; simp [variantRetryGo]
  | succ fuel ih =>
    intro retries acc hfail a
    obtain ⟨e, he⟩ := hfail retries le_rfl (by omega)
    by_cases hfat : isFatalError e = true
    · rw [variantRetryGo_succ_fatal attempt jitter fuel retries acc e he hfat]
      simp
    · cases e with
      | rateLimit ra =>
        rw [variantRetryGo_succ_rl attempt jitter fuel retries acc ra he]
        refine ih (retries + 1) _ ?_ a
        intro k h1 h2
        exact hfail k (by omega) (by omega)
      | providerE s c =>
        rw [variantRetryGo_succ_gen attempt jitter fuel retries acc _ he rfl
          (by simpa using hfat)]
        split
        · simp
        · refine ih (retries + 1) _ ?_ a
          intro k h1 h2
          exact hfail k (by omega) (by omega)
      | otherE =>
        rw [variantRetryGo_succ_gen attempt jitter fuel retries acc _ he rfl
          (by simpa using hfat)]
        split
        · simp
        · refine ih (retries + 1) _ ?_ a
          intro k h1 h2
          exact hfail k (by omega) (by omega)

theorem chunk_delays_nondecreasing (attempt : Nat → Except PErr α)
    (jitter : Nat → Nat) (hjit : ∀ r, jitter r ≤ 1000) (k d1 d2 : Nat)
    (h1 : (chunkRetryLoop attempt jitter).delays[k]? = some d1)
    (h2 : (chunkRetryLoop attempt jitter).delays[k + 1]? = some d2) :
    d1 ≤ d2 := by
  have hs := chunkRetryGo_delays_spec attempt jitter MAX_RETRIES 0 []
    (by omega) rfl (by intro k d h; simp at h)
  obtain ⟨e1, -, hd1, hle1, hg1⟩ := hs k d1 h1
  obtain ⟨e2, -, hd2, hle2, hg2⟩ := hs (k + 1) d2 h2
  subst hd1
  subst hd2
  have hj1 := hjit (k + 1)
  have hj2 := hjit (k + 2)
  simp only [MAX_RETRIES] at hle1 hle2 hg1 hg2
  have hk3 : k ≤ 3 := by omega
  clear hs h1 h2
  cases e1 <;> cases e2 <;>
    simp only [chunkRetryDelay, isRateLimit, RETRY_BASE_DELAY_MS,
      forall_const, Bool.true_eq_false, false_implies] at hg1 hg2 ⊢ <;>
    interval_cases k <;> simp_arith [Nat.min_def] at * <;> omega

/-! ### Claim C4 -/

/-- C4 counterexample: in the whole-variant retry loop, two generic
transient failures, a rate-limit failure, then another generic failure
produce the delay sequence [2000, 4000, 8000, 5000] ms: the fourth delay
is `min(1000·2⁴, 5000) = 5000`, not the claimed
`min(1000·2⁴, 20000) = 16000` — the 20-second cap applies only to
rate-limit failures, generic transient failures are capped at 5 seconds —
and the sequence is NOT non-decreasing. -/
theorem retry_delay_counterexample :
    (variantRetryLoop (α := Unit)
        (fun k => if k = 2 then .error (.rateLimit none)
                  else if k = 4 then .ok ()
                  else .error .otherE)
        (fun _ => 0)).delays = [2000, 4000, 8000, 5000] ∧
    (variantRetryLoop (α := Unit)
        (fun k => if k = 2 then .error (.rateLimit none)
                  else if k = 4 then .ok ()
                  else .error .otherE)
        (fun _ => 0)).delays[2]? = some 8000 ∧
    (variantRetryLoop (α := Unit)
        (fun k => if k = 2 then .error (.rateLimit none)
                  else if k = 4 then .ok ()
                  else .error .otherE)
        (fun _ => 0)).delays[3]? = some 5000 ∧
    ¬ ((8000 : Nat) ≤ 5000) ∧
    (5000 : Nat) ≠ min (1000 * 2 ^ 4) 20000 :=
  ⟨by decide, by decide, by decide, by decide, by decide⟩

/-- C4 (amended): after a retryable failure the wait before the next
attempt is `min(1000ms · 2^retry_count, cap)` where the cap depends on
BOTH the context and the failure class: rate-limit failures get a random
jitter of up to 1 second and are capped at 30 s (chunk-level) / 20 s
(whole-variant), while other transient failures get no jitter and are
capped at 10 s (chunk-level) / 5 s (whole-variant).  The chunk-level
delay sequence is non-decreasing (for any jitters ≤ 1000 ms); the
whole-variant sequence need not be (see the counterexample).  Each loop
issues at most 5 attempts, and 5 consecutive failures make the unit fail
terminally with no success. -/
theorem retryPolicy_amended (attemptC attemptV : Nat → Except PErr α)
    (jitterC jitterV : Nat → Nat) (hjC : ∀ r, jitterC r ≤ 1000) :
    (∀ k d, (chunkRetryLoop attemptC jitterC).delays[k]? = some d →
      ∃ e, attemptC k = .error e ∧
        d = chunkRetryDelay e (k + 1) (jitterC (k + 1))) ∧
    (∀ k d1 d2, (chunkRetryLoop attemptC jitterC).delays[k]? = some d1 →
      (chunkRetryLoop attemptC jitterC).delays[k + 1]? = some d2 →
        d1 ≤ d2) ∧
    (∀ k d, (variantRetryLoop attemptV jitterV).delays[k]? = some d →
      ∃ e, attemptV k = .error e ∧
        d = variantRetryDelay e (k + 1) (jitterV (k + 1))) ∧
    (chunkRetryLoop attemptC jitterC).attempts ≤ MAX_RETRIES ∧
    (variantRetryLoop attemptV jitterV).attempts ≤ MAX_RETRIES ∧
    ((∀ k, k < MAX_RETRIES → ∃ e, attemptC k = .error e) →
      ∀ a, (chunkRetryLoop attemptC jitterC).outcome ≠ .success a) ∧
    ((∀ k, k < MAX_RETRIES → ∃ e, attemptV k = .error e) →
      ∀ a, (variantRetryLoop attemptV jitterV).outcome ≠ .success a) := by
  refine ⟨?_, ?_, ?_, ?_, ?_, ?_, ?_⟩
  · intro k d h
    obtain ⟨e, he, hd, -, -⟩ := chunkRetryGo_delays_spec attemptC jitterC
      MAX_RETRIES 0 [] (by omega) rfl (by intro k d h; simp at h) k d h
    exact ⟨e, he, hd⟩
  · exact fun k d1 d2 h1 h2 => chunk_delays_nondecreasing attemptC jitterC hjC k d1 d2 h1 h2
  · intro k d h
    obtain ⟨e, he, hd, -, -⟩ := variantRetryGo_delays_spec attemptV jitterV
      MAX_RETRIES 0 [] (by omega) rfl (by intro k d h; simp at h) k d h
    exact ⟨e, he, hd⟩
  · exact le_trans (chunkRetryGo_attempts attemptC jitterC MAX_RETRIES 0 []) (by omega)
  · exact le_trans (variantRetryGo_attempts attemptV jitterV MAX_RETRIES 0 []) (by omega)
  · intro hfail a
    exact chunkRetryGo_no_success attemptC jitterC MAX_RETRIES 0 []
      (fun k h1 h2 => hfail k (by omega)) a
  · intro hfail a
    exact variantRetryGo_no_success attemptV jitterV MAX_RETRIES 0 []
      (fun k h1 h2 => hfail k (by omega)) a

/-- C4 witness: the amended retry-policy theorem applied to concrete
oracles (always-failing chunk attempts with zero jitter; a variant loop
succeeding on the third attempt). -/
theorem retryPolicy_amended_witness :
    (∀ k d, (chunkRetryLoop (α := Unit) (fun _ => .error .otherE)
        (fun _ => 0)).delays[k]? = some d →
      ∃ e, (fun _ : Nat => (.error .otherE : Except PErr Unit)) k = .error e ∧
        d = chunkRetryDelay e (k + 1) ((fun _ : Nat => 0) (k + 1))) ∧
    (∀ k d1 d2, (chunkRetryLoop (α := Unit) (fun _ => .error .otherE)
        (fun _ => 0)).delays[k]? = some d1 →
      (chunkRetryLoop (α := Unit) (fun _ => .error .otherE)
        (fun _ => 0)).delays[k + 1]? = some d2 → d1 ≤ d2) ∧
    (∀ k d, (variantRetryLoop (α := Unit)
        (fun n => if n = 2 then .ok () else .error (.rateLimit none))
        (fun _ => 0)).delays[k]? = some d →
      ∃ e, (fun n : Nat => (if n = 2 then .ok () else
          .error (.rateLimit none) : Except PErr Unit)) k = .error e ∧
        d = variantRetryDelay e (k + 1) ((fun _ : Nat => 0) (k + 1))) ∧
    (chunkRetryLoop (α := Unit) (fun _ => .error .otherE)
      (fun _ => 0)).attempts ≤ MAX_RETRIES ∧
    (variantRetryLoop (α := Unit)
      (fun n => if n = 2 then .ok () else .error (.rateLimit none))
      (fun _ => 0)).attempts ≤ MAX_RETRIES ∧
    ((∀ k, k < MAX_RETRIES →
        ∃ e, (fun _ : Nat => (.error .otherE : Except PErr Unit)) k = .error e) →
      ∀ a, (chunkRetryLoop (α := Unit) (fun _ => .error .otherE)
        (fun _ => 0)).outcome ≠ .success a) ∧
    ((∀ k, k < MAX_RETRIES →
        ∃ e, (fun n : Nat => (if n = 2 then .ok () else
            .error (.rateLimit none) : Except PErr Unit)) k = .error e) →
      ∀ a, (variantRetryLoop (α := Unit)
        (fun n => if n = 2 then .ok () else .error (.rateLimit none))
        (fun _ => 0)).outcome ≠ .success a) :=
  retryPolicy_amended (fun _ => .error .otherE)
    (fun n => if n = 2 then .ok () else .error (.rateLimit none))
    (fun _ => 0) (fun _ => 0) (fun _ => Nat.zero_le 1000)

/-! ## Variant orchestration (`src/providers/openai.ts`,
`generateVariantsWithOpenAI`) -/

/-- Which provider path a variant's work goes through. -/
inductive Strategy where
  | direct
  | chunked
deriving DecidableEq, Repr

/-- The path taken by one variant: `generateVariantsWithOpenAI` computes
`isLarge = content.length > LARGE_ARTICLE_THRESHOLD` once per call; the
large branch calls `rewriteLargeContentWithOpenAI`, which itself falls
back to the direct `rewriteWithOpenAI` when the content does not exceed
the threshold (line 328). -/
def strategyOf (isLarge : Bool) (contentLen : Nat) : Strategy :=
  if isLarge then
    (if contentLen ≤ LARGE_ARTICLE_THRESHOLD then .direct else .chunked)
  else .direct

/-- The outcome of one variant task run to completion: on the large path
one call to `rewriteLargeContentWithOpenAI` classified by the surrounding
catch (fatal errors set the shared flag, anything else is recorded, lines
571–579); on the small path the inline retry loop.  `largeCall i` is the
result of variant `i`'s chunked rewrite, `attempt i k` its k-th direct
attempt, `jitter i r` its rate-limit jitters. -/
def variantTask (isLarge : Bool) (largeCall : Nat → Except PErr α)
    (attempt : Nat → Nat → Except PErr α) (jitter : Nat → Nat → Nat)
    (i : Nat) : VariantOutcome α :=
  if isLarge then
    match largeCall i with
    | .ok a => .success a
    | .error e => if isFatalError e then .fatal e else .errored e
  else
    (variantRetryLoop (attempt i) (jitter i)).outcome

def variantSuccess? : VariantOutcome α → Option α
  | .success a => some a
  | _ => none

def variantErrored? : VariantOutcome α → Option PErr
  | .errored e => some e
  | _ => none

def variantIsFatal : VariantOutcome α → Bool
  | .fatal _ => true
  | _ => false

/-- The shared mutable state of one `generateVariantsWithOpenAI` call:
the slot-indexed `results` array, the `errors` list, the shared
`fatalError` flag, and (for the strategy claim) the path of every variant
task that actually did provider work. -/
structure OrchState (α : Type) where
  results : List (Option α)
  errors : List PErr
  fatalError : Option PErr
  calls : List Strategy
deriving DecidableEq, Repr

def orchInit (α : Type) (variantCount : Nat) : OrchState α :=
  ⟨List.replicate variantCount none, [], none, []⟩

/-- One variant task of `generateVariantsWithOpenAI` (the body of one
`Array.from(… async (_, i) => …)` promise, run to completion): the task
first checks `options.signal?.aborted || fatalError` and does nothing if
set; otherwise it runs its work and stores a success in its own slot,
records a fatal error in the shared flag, or pushes a transient error
onto `errors`. -/
def orchStep (aborted isLarge : Bool) (contentLen : Nat)
    (largeCall : Nat → Except PErr α) (attempt : Nat → Nat → Except PErr α)
    (jitter : Nat → Nat → Nat) (st : OrchState α) (i : Nat) : OrchState α :=
  if aborted || st.fatalError.isSome then st
  else
    let strat := strategyOf isLarge contentLen
    match variantTask isLarge largeCall attempt jitter i with
    | .success a =>
      { st with results := st.results.set i (some a),
                calls := st.calls ++ [strat] }
    | .fatal e => { st with fatalError := some e, calls := st.calls ++ [strat] }
    | .errored e =>
      { st with errors := st.errors ++ [e], calls := st.calls ++ [strat] }
    | .dropped => { st with calls := st.calls ++ [strat] }

/-- The state after every variant task has settled.  The tasks are run to
completion in slot order — one admissible cooperative schedule for the
concurrently-launched promises. -/
def orchRun (aborted : Bool) (contentLen variantCount : Nat)
    (largeCall : Nat → Except PErr α) (attempt : Nat → Nat → Except PErr α)
    (jitter : Nat → Nat → Nat) : OrchState α :=
  (List.range variantCount).foldl
    (orchStep aborted (decide (LARGE_ARTICLE_THRESHOLD < contentLen))
      contentLen largeCall attempt jitter)
    (orchInit α variantCount)

/-- `generateVariantsWithOpenAI` (lines 496–666): run all variant tasks,
then rethrow a recorded fatal error; otherwise return the successful
results (`results.filter(r => r)`), unless there are none and an error
was recorded, in which case the first recorded error is thrown. -/
def generateVariantsWithOpenAI (aborted : Bool) (contentLen variantCount : Nat)
    (largeCall : Nat → Except PErr α) (attempt : Nat → Nat → Except PErr α)
    (jitter : Nat → Nat → Nat) : Except PErr (List α) :=
  let st := orchRun aborted contentLen variantCount largeCall attempt jitter
  match st.fatalError with
  | some e => .error e
  | none =>
    let successfulResults := st.results.filterMap id
    match st.errors with
    | [] => .ok successfulResults
    | e :: _ =>
      if successfulResults.isEmpty then .error e else .ok successfulResults

/-! ### Orchestrator lemmas -/

theorem orchStep_of_fatal (aborted isLarge : Bool) (contentLen : Nat)
    (largeCall : Nat → Except PErr α) (attempt : Nat → Nat → Except PErr α)
    (jitter : Nat → Nat → Nat) (st : OrchState α) (i : Nat)
    (h : st.fatalError.isSome) :
    orchStep aborted isLarge contentLen largeCall attempt jitter st i = st := by
  unfold orchStep
  rw [if_pos (by simp [h])]

theorem orchStep_on_fatal_task (isLarge : Bool) (contentLen : Nat)
    (largeCall : Nat → Except PErr α) (attempt : Nat → Nat → Except PErr α)
    (jitter : Nat → Nat → Nat) (st : OrchState α) (i : Nat) (e : PErr)
    (hf : st.fatalError = none)
    (htask : variantTask isLarge largeCall attempt jitter i = .fatal e) :
    orchStep false isLarge contentLen largeCall attempt jitter st i =
      { st with fatalError := some e,
                calls := st.calls ++ [strategyOf isLarge contentLen] } := by
  unfold orchStep
  rw [if_neg (by simp [hf]), htask]

theorem orchFold_of_fatal (aborted isLarge : Bool) (contentLen : Nat)
    (largeCall : Nat → Except PErr α) (attempt : Nat → Nat → Except PErr α)
    (jitter : Nat → Nat → Nat) :
    ∀ (l : List Nat) (st : OrchState α), st.fatalError.isSome →
      l.foldl (orchStep aborted isLarge contentLen largeCall attempt jitter) st = st := by
  intro l
  induction l with
  | nil => intro st _; rfl
  | cons i rest ih =>
    intro st h
    rw [List.foldl_cons,
      orchStep_of_fatal aborted isLarge contentLen largeCall attempt jitter st i h,
      ih st h]

theorem orchFold_calls (aborted isLarge : Bool) (contentLen : Nat)
    (largeCall : Nat → Except PErr α) (attempt : Nat → Nat → Except PErr α)
    (jitter : Nat → Nat → Nat) :
    ∀ (l : List Nat) (st : OrchState α),
      (∀ s ∈ st.calls, s = strategyOf isLarge contentLen) →
      ∀ s ∈ (l.foldl (orchStep aborted isLarge contentLen largeCall attempt jitter) st).calls,
        s = strategyOf isLarge contentLen := by
  intro l
  induction l with
  | nil => intro st h; exact h
  | cons i rest ih =>
    intro st h
    rw [List.foldl_cons]
    apply ih
    unfold orchStep
    split
    · exact h
    · split <;>
      · intro s hs
        rw [List.mem_append] at hs
        rcases hs with hs | hs
        · exact h s hs
        · simpa using hs

theorem orchFold_noFatal (isLarge : Bool) (contentLen : Nat)
    (largeCall : Nat → Except PErr α) (attempt : Nat → Nat → Except PErr α)
    (jitter : Nat → Nat → Nat) (N : Nat) :
    ∀ k, k ≤ N →
      (∀ i, i < k →
        variantIsFatal (variantTask isLarge largeCall attempt jitter i) = false) →
      ((List.range k).foldl
          (orchStep false isLarge contentLen largeCall attempt jitter)
          (orchInit α N)).fatalError = none ∧
      ((List.range k).foldl
          (orchStep false isLarge contentLen largeCall attempt jitter)
          (orchInit α N)).results.length = N ∧
      (∀ j, ((List.range k).foldl
          (orchStep false isLarge contentLen largeCall attempt jitter)
          (orchInit α N)).results[j]? =
        if j < N then
          some (if j < k then
            variantSuccess? (variantTask isLarge largeCall attempt jitter j)
          else none)
        else none) ∧
      ((List.range k).foldl
          (orchStep false isLarge contentLen largeCall attempt jitter)
          (orchInit α N)).errors =
        (List.range k).filterMap
          (fun i => variantErrored? (variantTask isLarge largeCall attempt jitter i)) := by
  intro k
  induction k with
  | zero =>
    intro _ _
    refine ⟨rfl, by simp [orchInit], ?_, rfl⟩
    intro j
    simp [orchInit, List.getElem?_replicate]
  | succ k ih =>
    intro hkN hnf
    obtain ⟨ihf, ihl, ihr, ihe⟩ := ih (by omega) (fun i hi => hnf i (by omega))
    rw [List.range_succ, List.foldl_append, List.foldl_cons, List.foldl_nil]
    set st := (List.range k).foldl
      (orchStep false isLarge contentLen largeCall attempt jitter)
      (orchInit α N) with hst
    unfold orchStep
    rw [if_neg (by simp [ihf])]
    cases htask : variantTask isLarge largeCall attempt jitter k with
    | success a =>
      refine ⟨ihf, by simp [ihl], ?_, ?_⟩
      · intro j
        simp only [List.getElem?_set, ihl]
        by_cases hjk : k = j
        · subst hjk
          rw [if_pos rfl]
          have hkN' : k < N := by omega
          rw [if_pos hkN', if_pos hkN', if_pos (by omega)]
          simp [htask, variantSuccess?]
        · rw [if_neg hjk, ihr j]
          by_cases hj : j < N
          · rw [if_pos hj, if_pos hj]
            by_cases hjk2 : j < k
            · rw [if_pos hjk2, if_pos (by omega)]
            · rw [if_neg hjk2, if_neg (by omega)]
          · rw [if_neg hj, if_neg hj]
      · simp [List.filterMap_append, ihe, htask, variantErrored?]
    | fatal e =>
      have hcontra := hnf k (by omega)
      rw [htask] at hcontra
      simp [variantIsFatal] at hcontra
    | errored e =>
      refine ⟨ihf, by simp [ihl], ?_, ?_⟩
      · intro j
        rw [ihr j]
        by_cases hj : j < N
        · rw [if_pos hj, if_pos hj]
          by_cases hjk : j < k
          · rw [if_pos hjk, if_pos (by omega)]
          · by_cases hjk1 : j < k + 1
            · have hjeq : j = k := by omega
              subst hjeq
              rw [if_pos hjk1]
              simp [htask, variantSuccess?]
            · rw [if_neg hjk1, if_neg hjk]
        · rw [if_neg hj, if_neg hj]
      · simp [List.filterMap_append, ihe, htask, variantErrored?]
    | dropped =>
      refine ⟨ihf, by simp [ihl], ?_, ?_⟩
      · intro j
        rw [ihr j]
        by_cases hj : j < N
        · rw [if_pos hj, if_pos hj]
          by_cases hjk : j < k
          · rw [if_pos hjk, if_pos (by omega)]
          · by_cases hjk1 : j < k + 1
            · have hjeq : j = k := by omega
              subst hjeq
              rw [if_pos hjk1]
              simp [htask, variantSuccess?]
            · rw [if_neg hjk1, if_neg hjk]
        · rw [if_neg hj, if_neg hj]
      · simp [List.filterMap_append, ihe, htask, variantErrored?]

theorem orchFold_fatal_none (isLarge : Bool) (contentLen : Nat)
    (largeCall : Nat → Except PErr α) (attempt : Nat → Nat → Except PErr α)
    (jitter : Nat → Nat → Nat) :
    ∀ (l : List Nat) (st : OrchState α),
      (l.foldl (orchStep false isLarge contentLen largeCall attempt jitter)
        st).fatalError = none →
      st.fatalError = none ∧
      ∀ i ∈ l, variantIsFatal (variantTask isLarge largeCall attempt jitter i) = false := by
  intro l
  induction l with
  | nil => intro st h; exact ⟨h, by simp⟩
  | cons i rest ih =>
    intro st hfin
    rw [List.foldl_cons] at hfin
    obtain ⟨h1, h2⟩ := ih _ hfin
    have hnone : st.fatalError = none := by
      cases hst : st.fatalError with
      | none => rfl
      | some e =>
        rw [orchStep_of_fatal false isLarge contentLen largeCall attempt jitter
          st i (by simp [hst]), hst] at h1
        cases h1
    refine ⟨hnone, ?_⟩
    intro j hj
    rw [List.mem_cons] at hj
    rcases hj with hj | hj
    · subst hj
      unfold orchStep at h1
      rw [if_neg (by simp [hnone])] at h1
      cases htask : variantTask isLarge largeCall attempt jitter j with
      | fatal e => rw [htask] at h1; cases h1
      | success a => simp [variantIsFatal]
      | errored e => simp [variantIsFatal]
      | dropped => simp [variantIsFatal]
    · exact h2 j hj

theorem range_split (n j : Nat) (h : j ≤ n) :
    List.range n = List.range j ++ List.range' j (n - j) := by
  have h2 := List.range'_append 0 j (n - j) 1
  rw [Nat.one_mul, Nat.zero_add, show n - j + j = n by omega] at h2
  rw [List.range_eq_range', List.range_eq_range']
  exact h2.symm

theorem strategyOf_decide (contentLen : Nat) :
    strategyOf (decide (LARGE_ARTICLE_THRESHOLD < contentLen)) contentLen =
      if LARGE_ARTICLE_THRESHOLD < contentLen then Strategy.chunked
      else Strategy.direct := by
  by_cases h : LARGE_ARTICLE_THRESHOLD < contentLen
  · rw [if_pos h]
    unfold strategyOf
    rw [if_pos (by simpa using h), if_neg (by omega)]
  · rw [if_neg h]
    unfold strategyOf
    rw [if_neg (by simpa using h)]

theorem generateVariants_eq_fatal (aborted : Bool)
    (contentLen variantCount : Nat) (largeCall : Nat → Except PErr α)
    (attempt : Nat → Nat → Except PErr α) (jitter : Nat → Nat → Nat)
    (e : PErr)
    (hf : (orchRun aborted contentLen variantCount largeCall attempt
      jitter).fatalError = some e) :
    generateVariantsWithOpenAI aborted contentLen variantCount largeCall
      attempt jitter = .error e := by
  simp only [generateVariantsWithOpenAI]
  rw [hf]

theorem generateVariants_eq_noerr (aborted : Bool)
    (contentLen variantCount : Nat) (largeCall : Nat → Except PErr α)
    (attempt : Nat → Nat → Except PErr α) (jitter : Nat → Nat → Nat)
    (hf : (orchRun aborted contentLen variantCount largeCall attempt
      jitter).fatalError = none)
    (he : (orchRun aborted contentLen variantCount largeCall attempt
      jitter).errors = []) :
    generateVariantsWithOpenAI aborted contentLen variantCount largeCall
      attempt jitter =
      .ok ((orchRun aborted contentLen variantCount largeCall attempt
        jitter).results.filterMap id) := by
  simp only [generateVariantsWithOpenAI]
  rw [hf, he]

theorem generateVariants_eq_err (aborted : Bool)
    (contentLen variantCount : Nat) (largeCall : Nat → Except PErr α)
    (attempt : Nat → Nat → Except PErr α) (jitter : Nat → Nat → Nat)
    (e : PErr) (rest : List PErr)
    (hf : (orchRun aborted contentLen variantCount largeCall attempt
      jitter).fatalError = none)
    (he : (orchRun aborted contentLen variantCount largeCall attempt
      jitter).errors = e :: rest) :
    generateVariantsWithOpenAI aborted contentLen variantCount largeCall
      attempt jitter =
      if ((orchRun aborted contentLen variantCount largeCall attempt
          jitter).results.filterMap id).isEmpty then .error e
      else .ok ((orchRun aborted contentLen variantCount largeCall attempt
        jitter).results.filterMap id) := by
  simp only [generateVariantsWithOpenAI]
  rw [hf, he]

theorem generateVariants_ok_inv (aborted : Bool) (contentLen variantCount : Nat)
    (largeCall : Nat → Except PErr α) (attempt : Nat → Nat → Except PErr α)
    (jitter : Nat → Nat → Nat) (l : List α)
    (h : generateVariantsWithOpenAI aborted contentLen variantCount largeCall
      attempt jitter = .ok l) :
    (orchRun aborted contentLen variantCount largeCall attempt jitter).fatalError = none ∧
    l = (orchRun aborted contentLen variantCount largeCall attempt jitter).results.filterMap id := by
  cases hf : (orchRun aborted contentLen variantCount largeCall attempt jitter).fatalError with
  | some e =>
    rw [generateVariants_eq_fatal aborted contentLen variantCount largeCall
      attempt jitter e hf] at h
    cases h
  | none =>
    refine ⟨rfl, ?_⟩
    cases he : (orchRun aborted contentLen variantCount largeCall attempt jitter).errors with
    | nil =>
      rw [generateVariants_eq_noerr aborted contentLen variantCount largeCall
        attempt jitter hf he] at h
      exact (Except.ok.inj h).symm
    | cons e rest =>
      rw [generateVariants_eq_err aborted contentLen variantCount largeCall
        attempt jitter e rest hf he] at h
      by_cases hemp : ((orchRun aborted contentLen variantCount largeCall
          attempt jitter).results.filterMap id).isEmpty
      · rw [if_pos hemp] at h; cases h
      · rw [if_neg hemp] at h
        exact (Except.ok.inj h).symm

theorem orchRun_noFatal_state (contentLen variantCount : Nat)
    (largeCall : Nat → Except PErr α) (attempt : Nat → Nat → Except PErr α)
    (jitter : Nat → Nat → Nat)
    (hnf : ∀ i, i < variantCount →
      variantIsFatal (variantTask (decide (LARGE_ARTICLE_THRESHOLD < contentLen))
        largeCall attempt jitter i) = false) :
    (orchRun false contentLen variantCount largeCall attempt jitter).fatalError = none ∧
    (orchRun false contentLen variantCount largeCall attempt jitter).results.filterMap id =
      (List.range variantCount).filterMap (fun i =>
        variantSuccess? (variantTask (decide (LARGE_ARTICLE_THRESHOLD < contentLen))
          largeCall attempt jitter i)) ∧
    (orchRun false contentLen variantCount largeCall attempt jitter).errors =
      (List.range variantCount).filterMap (fun i =>
        variantErrored? (variantTask (decide (LARGE_ARTICLE_THRESHOLD < contentLen))
          largeCall attempt jitter i)) := by
  obtain ⟨hf, hlen, hres, herr⟩ := orchFold_noFatal
    (decide (LARGE_ARTICLE_THRESHOLD < contentLen)) contentLen largeCall attempt
    jitter variantCount variantCount le_rfl hnf
  have hreseq : (orchRun false contentLen variantCount largeCall attempt
      jitter).results = (List.range variantCount).map (fun j =>
        variantSuccess? (variantTask (decide (LARGE_ARTICLE_THRESHOLD < contentLen))
          largeCall attempt jitter j)) := by
    apply List.ext_getElem?
    intro j
    show ((List.range variantCount).foldl
      (orchStep false (decide (LARGE_ARTICLE_THRESHOLD < contentLen)) contentLen
        largeCall attempt jitter) (orchInit α variantCount)).results[j]? = _
    rw [hres j]
    by_cases hj : j < variantCount
    · rw [if_pos hj, if_pos hj, List.getElem?_map, List.getElem?_range hj]
      rfl
    · rw [if_neg hj, List.getElem?_map,
        List.getElem?_eq_none (by simpa using not_lt.mp hj)]
      rfl
  refine ⟨hf, ?_, herr⟩
  rw [hreseq, List.filterMap_map]
  rfl

/-! ### Claim C1 -/

/-- C1 counterexample: with two variants of small content, variant 0
succeeds but variant 1 hits a fatal error (HTTP 401); the recorded fatal
error is thrown even though one variant succeeded, so "if at least one
variant succeeds, the successful results are returned" fails on the
code. -/
theorem generateVariants_fatal_overrides_success_counterexample :
    generateVariantsWithOpenAI false 100 2
        (fun _ => (.error .otherE : Except PErr Nat))
        (fun i _ => if i = 0 then .ok 42 else .error (.providerE (some 401) none))
        (fun _ _ => 0) =
      .error (.providerE (some 401) none) ∧
    variantTask (decide (LARGE_ARTICLE_THRESHOLD < 100))
        (fun _ => (.error .otherE : Except PErr Nat))
        (fun i _ => if i = 0 then .ok 42 else .error (.providerE (some 401) none))
        (fun _ _ => 0) 0 = .success 42 :=
  ⟨rfl, rfl⟩

/-- C1 (amended): a recorded fatal-class error is thrown even when some
variants succeeded; otherwise, if at least one variant succeeds the
successful results are returned (fewer than requested is not an error);
if zero variants succeed and at least one error was recorded, the first
recorded error is thrown; and the caller is never returned an empty list
while errors were recorded. -/
theorem generateVariants_aggregation (contentLen variantCount : Nat)
    (largeCall : Nat → Except PErr α) (attempt : Nat → Nat → Except PErr α)
    (jitter : Nat → Nat → Nat) :
    (∀ j e, j < variantCount →
      variantTask (decide (LARGE_ARTICLE_THRESHOLD < contentLen)) largeCall
        attempt jitter j = .fatal e →
      (∀ i, i < j →
        variantIsFatal (variantTask (decide (LARGE_ARTICLE_THRESHOLD < contentLen))
          largeCall attempt jitter i) = false) →
      generateVariantsWithOpenAI false contentLen variantCount largeCall
        attempt jitter = .error e) ∧
    ((∀ i, i < variantCount →
        variantIsFatal (variantTask (decide (LARGE_ARTICLE_THRESHOLD < contentLen))
          largeCall attempt jitter i) = false) →
      (List.range variantCount).filterMap (fun i =>
        variantSuccess? (variantTask (decide (LARGE_ARTICLE_THRESHOLD < contentLen))
          largeCall attempt jitter i)) ≠ [] →
      generateVariantsWithOpenAI false contentLen variantCount largeCall
        attempt jitter = .ok ((List.range variantCount).filterMap (fun i =>
          variantSuccess? (variantTask (decide (LARGE_ARTICLE_THRESHOLD < contentLen))
            largeCall attempt jitter i)))) ∧
    ((∀ i, i < variantCount →
        variantIsFatal (variantTask (decide (LARGE_ARTICLE_THRESHOLD < contentLen))
          largeCall attempt jitter i) = false) →
      (List.range variantCount).filterMap (fun i =>
        variantSuccess? (variantTask (decide (LARGE_ARTICLE_THRESHOLD < contentLen))
          largeCall attempt jitter i)) = [] →
      ∀ e rest, (List.range variantCount).filterMap (fun i =>
        variantErrored? (variantTask (decide (LARGE_ARTICLE_THRESHOLD < contentLen))
          largeCall attempt jitter i)) = e :: rest →
      generateVariantsWithOpenAI false contentLen variantCount largeCall
        attempt jitter = .error e) ∧
    (∀ l, generateVariantsWithOpenAI false contentLen variantCount largeCall
        attempt jitter = .ok l → l = [] →
      (orchRun false contentLen variantCount largeCall attempt jitter).errors = []) := by
  refine ⟨?_, ?_, ?_, ?_⟩
  · intro j e hj htask hpre
    have hfatal : (orchRun false contentLen variantCount largeCall attempt
        jitter).fatalError = some e := by
      unfold orchRun
      rw [range_split variantCount (j + 1) (by omega), List.foldl_append,
        List.range_succ, List.foldl_append, List.foldl_cons, List.foldl_nil]
      obtain ⟨hf0, -, -, -⟩ := orchFold_noFatal
        (decide (LARGE_ARTICLE_THRESHOLD < contentLen)) contentLen largeCall
        attempt jitter variantCount j (by omega) hpre
      have hstep := orchStep_on_fatal_task
        (decide (LARGE_ARTICLE_THRESHOLD < contentLen)) contentLen largeCall
        attempt jitter
        ((List.range j).foldl (orchStep false
          (decide (LARGE_ARTICLE_THRESHOLD < contentLen)) contentLen largeCall
          attempt jitter) (orchInit α variantCount)) j e hf0 htask
      rw [orchFold_of_fatal false (decide (LARGE_ARTICLE_THRESHOLD < contentLen))
        contentLen largeCall attempt jitter _ _ (by rw [hstep]; rfl), hstep]
    exact generateVariants_eq_fatal false contentLen variantCount largeCall
      attempt jitter e hfatal
  · intro hnf hne
    obtain ⟨hf, hsucc, herr⟩ := orchRun_noFatal_state contentLen variantCount
      largeCall attempt jitter hnf
    cases herrs : (orchRun false contentLen variantCount largeCall attempt
        jitter).errors with
    | nil =>
      rw [generateVariants_eq_noerr false contentLen variantCount largeCall
        attempt jitter hf herrs, hsucc]
    | cons e0 rest0 =>
      rw [generateVariants_eq_err false contentLen variantCount largeCall
        attempt jitter e0 rest0 hf herrs, hsucc,
        if_neg (by simpa [List.isEmpty_iff] using hne)]
  · intro hnf hsucc0 e rest herrseq
    obtain ⟨hf, hsucc, herr⟩ := orchRun_noFatal_state contentLen variantCount
      largeCall attempt jitter hnf
    rw [generateVariants_eq_err false contentLen variantCount largeCall
      attempt jitter e rest hf (herr.trans herrseq), hsucc, hsucc0,
      if_pos (by rfl)]
  · intro l hok hl0
    obtain ⟨hfat, hl⟩ := generateVariants_ok_inv false contentLen variantCount
      largeCall attempt jitter l hok
    cases herrs : (orchRun false contentLen variantCount largeCall attempt
        jitter).errors with
    | nil => rfl
    | cons e rest =>
      rw [generateVariants_eq_err false contentLen variantCount largeCall
        attempt jitter e rest hfat herrs] at hok
      by_cases hemp : ((orchRun false contentLen variantCount largeCall attempt
          jitter).results.filterMap id).isEmpty
      · rw [if_pos hemp] at hok; cases hok
      · rw [if_neg hemp] at hok
        refine absurd ?_ hemp
        rw [Except.ok.inj hok, hl0]
        rfl

/-- C1 witness: one small-content variant that succeeds; the aggregation
theorem yields the successful results. -/
theorem generateVariants_aggregation_witness :
    generateVariantsWithOpenAI false 100 1
        (fun _ => (.error .otherE : Except PErr Nat))
        (fun _ _ => .ok 7) (fun _ _ => 0) =
      .ok ((List.range 1).filterMap (fun i =>
        variantSuccess? (variantTask (decide (LARGE_ARTICLE_THRESHOLD < 100))
          (fun _ => (.error .otherE : Except PErr Nat))
          (fun _ _ => .ok 7) (fun _ _ => 0) i))) :=
  (generateVariants_aggregation 100 1
    (fun _ => (.error .otherE : Except PErr Nat))
    (fun _ _ => .ok 7) (fun _ _ => 0)).2.1
    (by decide) (by decide)

/-! ### Claim C2 -/

/-- C2: a normal return of `generateVariantsWithOpenAI` is an ordered
list of length at most `variantCount` holding exactly the successful
variants in their original slot order; and every variant task of the call
uses the same strategy, which is the chunked path exactly when the
content length exceeds `LARGE_ARTICLE_THRESHOLD` (12000). -/
theorem generateVariants_ordered_single_strategy (contentLen variantCount : Nat)
    (largeCall : Nat → Except PErr α) (attempt : Nat → Nat → Except PErr α)
    (jitter : Nat → Nat → Nat) :
    (∀ l, generateVariantsWithOpenAI false contentLen variantCount largeCall
        attempt jitter = .ok l →
      l.length ≤ variantCount ∧
      l = (List.range variantCount).filterMap (fun i =>
        variantSuccess? (variantTask (decide (LARGE_ARTICLE_THRESHOLD < contentLen))
          largeCall attempt jitter i))) ∧
    (∀ s ∈ (orchRun false contentLen variantCount largeCall attempt jitter).calls,
      s = if LARGE_ARTICLE_THRESHOLD < contentLen then Strategy.chunked
          else Strategy.direct) := by
  constructor
  · intro l hok
    obtain ⟨hfat, hl⟩ := generateVariants_ok_inv false contentLen variantCount
      largeCall attempt jitter l hok
    have hnf : ∀ i, i < variantCount →
        variantIsFatal (variantTask (decide (LARGE_ARTICLE_THRESHOLD < contentLen))
          largeCall attempt jitter i) = false := by
      have h2 := (orchFold_fatal_none
        (decide (LARGE_ARTICLE_THRESHOLD < contentLen)) contentLen largeCall
        attempt jitter (List.range variantCount) (orchInit α variantCount)
        hfat).2
      intro i hi
      exact h2 i (List.mem_range.mpr hi)
    obtain ⟨-, hsucc, -⟩ := orchRun_noFatal_state contentLen variantCount
      largeCall attempt jitter hnf
    subst hl
    rw [hsucc]
    refine ⟨le_trans (List.length_filterMap_le _ _) (by simp), rfl⟩
  · intro s hs
    have h1 := orchFold_calls false (decide (LARGE_ARTICLE_THRESHOLD < contentLen))
      contentLen largeCall attempt jitter (List.range variantCount)
      (orchInit α variantCount) (by intro s hs2; simp [orchInit] at hs2) s hs
    rw [strategyOf_decide] at h1
    exact h1

/-- C2 witness: two small-content variants, both successful; the returned
list is slot-ordered and the strategy is the direct path. -/
theorem generateVariants_ordered_single_strategy_witness :
    ((([0, 10] : List Nat).length ≤ 2 ∧
      ([0, 10] : List Nat) = (List.range 2).filterMap (fun i =>
        variantSuccess? (variantTask (decide (LARGE_ARTICLE_THRESHOLD < 20))
          (fun _ => (.error .otherE : Except PErr Nat))
          (fun i _ => .ok (i * 10)) (fun _ _ => 0) i))) ∧
    (∀ s ∈ (orchRun false 20 2 (fun _ => (.error .otherE : Except PErr Nat))
        (fun i _ => .ok (i * 10)) (fun _ _ => 0)).calls,
      s = if LARGE_ARTICLE_THRESHOLD < 20 then Strategy.chunked
          else Strategy.direct)) :=
  ⟨(generateVariants_ordered_single_strategy 20 2
      (fun _ => (.error .otherE : Except PErr Nat))
      (fun i _ => .ok (i * 10)) (fun _ _ => 0)).1 [0, 10] rfl,
   (generateVariants_ordered_single_strategy 20 2
      (fun _ => (.error .otherE : Except PErr Nat))
      (fun i _ => .ok (i * 10)) (fun _ _ => 0)).2⟩

/-! ## Input validation and prompt resolution (`src/rewriter.ts`,
`src/constants.ts`) -/

/-- An error surfaced by `ContentRewriter.rewrite`: a `ValidationError`
or an error propagated from the provider layer. -/
inductive RewriteErr where
  | validation (msg : String)
  | provider (e : PErr)
deriving DecidableEq, Repr

def isValidationError : RewriteErr → Bool
  | .validation _ => true
  | _ => false

/-- The per-call options of `ContentRewriter.rewrite` that validation
looks at. -/
structure RewriteCallOptions where
  variants : Option Int
  temperature : Option ℚ
  prompt : Option String
  promptTemplate : Option String

/-- A prompt-template entry: custom prompts may be plain strings or
`{ name, prompt }` records. -/
inductive PromptDef where
  | plain (s : String)
  | named (nm promptText : String)
deriving DecidableEq, Repr

def promptOf : PromptDef → String
  | .plain s => s
  | .named _ p => p

/-- `DEFAULT_REWRITE_PROMPT` from `src/constants.ts`. -/
def DEFAULT_REWRITE_PROMPT : String :=
  "You are a professional copywriter. Your task is to create a COMPLETELY unique rewrite while preserving meaning and SEO value.\n\nCRITICAL LANGUAGE RULE:\n- ALWAYS write the rewrite in the SAME LANGUAGE as the original content\n- If the original is in English, write in English\n- If the original is in Russian, write in Russian\n- If the original is in any other language, maintain that language\n- NEVER translate or change the language unless explicitly requested\n\nIMPORTANT REWRITING RULES:\n1. COMPLETELY reformulate every sentence - change structure, word order, and phrasing\n2. Title and Description must be COMPLETELY rewritten, not just paraphrased\n3. Use synonyms and alternative expressions while preserving meaning accuracy\n4. All headings (H1, H2, H3) must be reformulated while maintaining appeal and SEO value\n5. Preserve brand mentions and important keywords (as indicated in the text)\n6. Vary sentence length and paragraph structure for naturalness\n7. Maintain factual accuracy while presenting information differently\n8. Preserve HTML structure but change text content by 90-95%\n9. DO NOT copy phrases from the original verbatim\n10. If you see repeating phrases or patterns - vary them\n\nWRITING STYLE:\n- Professional yet accessible\n- Engaging and informative\n- Natural language without bureaucratic expressions\n- Appropriate for the target audience\n\nDO NOT:\n- Copy phrases or sentence structures from the original\n- Use the same templates for different paragraphs\n- Change the language of the content\n- Simplify the text to a primitive level\n\nReturn only the rewritten content without any additional formatting or explanation."

/-- `PROMPTS` from `src/constants.ts`: only the default and the custom
entry are built in. -/
def PROMPTS : List (String × PromptDef) :=
  [("DEFAULT", .named "Default Rewrite" DEFAULT_REWRITE_PROMPT),
   ("CUSTOM", .named "Custom Prompt" "")]

/-- `validateInput` from `src/rewriter.ts`: empty then whitespace-only
content is rejected (whitespace is the ASCII class of the JS `\s`). -/
def validateInput (content : String) : Except RewriteErr Unit :=
  if content = "" then
    .error (.validation "Content is required and must be a string")
  else if content.toList.all isSpaceJS then
    .error (.validation "Content cannot be empty")
  else .ok ()

/-- `validateOptions` from `src/rewriter.ts`. -/
def validateOptions (opts : RewriteCallOptions) : Except RewriteErr Unit :=
  if (match opts.variants with
      | some v => decide (v < 1) || decide (30 < v)
      | none => false) then
    .error (.validation "Variants must be between 1 and 30")
  else if (match opts.temperature with
      | some t => decide (t < 0) || decide (2 < t)
      | none => false) then
    .error (.validation "Temperature must be between 0 and 2")
  else .ok ()

/-- The template key actually used by `resolvePrompt`:
`options.promptTemplate || DEFAULTS.PROMPT_TEMPLATE` (the empty string is
falsy). -/
def effectiveTemplateKey (opts : RewriteCallOptions) : String :=
  match opts.promptTemplate with
  | some k => if k = "" then "DEFAULT" else k
  | none => "DEFAULT"

/-- The template branch of `resolvePrompt`: built-in templates win over
custom ones; an unknown key is a `ValidationError`. -/
def resolveTemplate (customPrompts : List (String × PromptDef))
    (opts : RewriteCallOptions) : Except RewriteErr String :=
  let templateKey := effectiveTemplateKey opts
  match PROMPTS.lookup templateKey with
  | some t => .ok (promptOf t)
  | none =>
    match customPrompts.lookup templateKey with
    | some t => .ok (promptOf t)
    | none =>
      .error (.validation (String.append "Unknown prompt template: " templateKey))

/-- `resolvePrompt` from `src/rewriter.ts`: a non-empty explicit prompt
takes priority over templates. -/
def resolvePrompt (customPrompts : List (String × PromptDef))
    (opts : RewriteCallOptions) : Except RewriteErr String :=
  match opts.prompt with
  | some p => if p = "" then resolveTemplate customPrompts opts else .ok p
  | none => resolveTemplate customPrompts opts

/-- `DEFAULTS.VARIANT_COUNT` from `src/constants.ts`. -/
def DEFAULT_VARIANT_COUNT : Int := 1

/-- The request a `ContentRewriter.rewrite` call passes to the provider
layer after validation. -/
structure PreparedRequest where
  content : String
  prompt : String
  variantCount : Int
  temperature : ℚ

/-- The validation prefix of `ContentRewriter.rewrite`: `validateInput`,
`validateOptions`, then `resolvePrompt`, all before any provider call. -/
def rewriteValidate (customPrompts : List (String × PromptDef))
    (defaultTemperature : ℚ) (content : String) (opts : RewriteCallOptions) :
    Except RewriteErr PreparedRequest :=
  match validateInput content with
  | .error e => .error e
  | .ok _ =>
    match validateOptions opts with
    | .error e => .error e
    | .ok _ =>
      match resolvePrompt customPrompts opts with
      | .error e => .error e
      | .ok prompt =>
        .ok ⟨content, prompt, opts.variants.getD DEFAULT_VARIANT_COUNT,
          opts.temperature.getD defaultTemperature⟩

/-- `ContentRewriter.rewrite` up to the provider boundary: validate, then
hand the prepared request to the provider (`executeRewrite`).  The
provider is a parameter, so validation failures are provably independent
of any network behavior. -/
def rewritePipeline (customPrompts : List (String × PromptDef))
    (defaultTemperature : ℚ)
    (provider : PreparedRequest → Except RewriteErr (List β))
    (content : String) (opts : RewriteCallOptions) :
    Except RewriteErr (List β) :=
  match rewriteValidate customPrompts defaultTemperature content opts with
  | .error e => .error e
  | .ok req => provider req

/-! ### Claim C8 -/

/-- C8: empty or whitespace-only content, a variant count outside [1,30],
a temperature outside [0,2], or an unknown prompt-template key (with no
usable explicit prompt) makes the rewrite pipeline fail with a
`ValidationError` whose value is the same for EVERY provider — so the
failure happens before, and independent of, any network activity, and in
particular no provider call is made that could be retried. -/
theorem rewrite_validates_before_network {β : Type}
    (customPrompts : List (String × PromptDef)) (defaultTemperature : ℚ)
    (content : String) (opts : RewriteCallOptions)
    (hbad : content.toList.all isSpaceJS = true ∨
      (∃ v, opts.variants = some v ∧ (v < 1 ∨ 30 < v)) ∨
      (∃ t, opts.temperature = some t ∧ (t < 0 ∨ 2 < t)) ∨
      ((opts.prompt = none ∨ opts.prompt = some "") ∧
        PROMPTS.lookup (effectiveTemplateKey opts) = none ∧
        customPrompts.lookup (effectiveTemplateKey opts) = none)) :
    ∃ msg, ∀ (provider : PreparedRequest → Except RewriteErr (List β)),
      rewritePipeline customPrompts defaultTemperature provider content opts =
        .error (.validation msg) := by
  suffices h : ∃ msg, rewriteValidate customPrompts defaultTemperature content
      opts = .error (.validation msg) by
    obtain ⟨msg, hmsg⟩ := h
    refine ⟨msg, fun provider => ?_⟩
    unfold rewritePipeline
    rw [hmsg]
  cases hvi : validateInput content with
  | error e =>
    have he : ∃ msg, e = .validation msg := by
      unfold validateInput at hvi
      split at hvi
      · exact ⟨_, (Except.error.inj hvi).symm⟩
      · split at hvi
        · exact ⟨_, (Except.error.inj hvi).symm⟩
        · cases hvi
    obtain ⟨msg, rfl⟩ := he
    exact ⟨msg, by unfold rewriteValidate; rw [hvi]⟩
  | ok u =>
    have hc : content.toList.all isSpaceJS = false := by
      unfold validateInput at hvi
      split at hvi
      · cases hvi
      · split at hvi
        · cases hvi
        · rename_i h2
          simpa using h2
    cases hvo : validateOptions opts with
    | error e =>
      have he : ∃ msg, e = .validation msg := by
        unfold validateOptions at hvo
        split at hvo
        · exact ⟨_, (Except.error.inj hvo).symm⟩
        · split at hvo
          · exact ⟨_, (Except.error.inj hvo).symm⟩
          · cases hvo
      obtain ⟨msg, rfl⟩ := he
      exact ⟨msg, by unfold rewriteValidate; rw [hvi, hvo]⟩
    | ok u2 =>
      have hvars : ∀ v, opts.variants = some v → ¬ (v < 1 ∨ 30 < v) := by
        intro v hv hcontra
        unfold validateOptions at hvo
        rw [hv] at hvo
        split at hvo
        · cases hvo
        · rename_i hcond
          have : (decide (v < 1) || decide (30 < v)) = false := by
            simpa using hcond
          rcases hcontra with h | h <;> simp [h] at this
      have htemp : ∀ t, opts.temperature = some t → ¬ (t < 0 ∨ 2 < t) := by
        intro t ht hcontra
        unfold validateOptions at hvo
        rw [ht] at hvo
        split at hvo
        · cases hvo
        · split at hvo
          · cases hvo
          · rename_i hcond
            have : (decide (t < 0) || decide (2 < t)) = false := by
              simpa using hcond
            rcases hcontra with h | h <;> simp [h] at this
      rcases hbad with hbad | ⟨v, hv, hrange⟩ | ⟨t, ht, hrange⟩ |
        ⟨hnoprompt, hbuiltin, hcustom⟩
      · rw [hbad] at hc
        cases hc
      · exact absurd hrange (hvars v hv)
      · exact absurd hrange (htemp t ht)
      · have hrt : resolveTemplate customPrompts opts =
            .error (.validation (String.append "Unknown prompt template: "
              (effectiveTemplateKey opts))) := by
          simp only [resolveTemplate]
          rw [hbuiltin, hcustom]
        have hrp : resolvePrompt customPrompts opts =
            .error (.validation (String.append "Unknown prompt template: "
              (effectiveTemplateKey opts))) := by
          rcases hnoprompt with h | h
          · unfold resolvePrompt
            rw [h]
            exact hrt
          · unfold resolvePrompt
            rw [h]
            show (if ("" : String) = "" then resolveTemplate customPrompts opts
              else .ok "") = _
            rw [if_pos rfl]
            exact hrt
        exact ⟨_, by unfold rewriteValidate; rw [hvi, hvo, hrp]⟩

/-- C8 witness: empty content with default options fails validation for
every provider. -/
theorem rewrite_validates_before_network_witness :
    ∃ msg, ∀ (provider : PreparedRequest → Except RewriteErr (List Nat)),
      rewritePipeline [] (9 / 10) provider "" ⟨none, none, none, none⟩ =
        .error (.validation msg) :=
  rewrite_validates_before_network [] (9 / 10) "" ⟨none, none, none, none⟩
    (Or.inl (by decide))

end AIContentRewriter
